import Mathlib

/-!
# Verification of the billig temporal/ledger engine

A shallow embedding in Lean 4 of the core of the `billig` personal ledger:

* day-precision date arithmetic (`src/lib/date.rs`),
* the interval algebra over ordered types (`src/util/period.rs`),
* span resolution and entry prorating (`src/util/entry.rs`),
* calendar aggregation with binary-search lookup (`src/lib/summary.rs`),
* template instantiation with its diagnostic record
  (`src/load/template.rs`, `src/load/error.rs`).

Rust `u8`/`u16` values are modelled as `Nat`, `isize` as `Int`; the
wrapping `as u8` / `as u16` casts of the source are made explicit where
they occur (`as_u8`, `as_u16`).  Rust's signed division truncates toward
zero, hence `Int.tdiv` throughout.  A Rust `panic!` / failed `assert!`
is modelled by an `Option` result being `none`.
-/

namespace Billig

/-! ## Dates (`src/lib/date.rs`) -/

/-- `is_leap`: the 400/100/4 leap-year rule. -/
def is_leap (year : Nat) : Bool :=
  if year % 400 = 0 then true
  else if year % 100 = 0 then false
  else year % 4 = 0

/-- The twelve months, `Month` in the source (discriminants 0..=11). -/
inductive Month where
  | jan | feb | mar | apr | may | jun | jul | aug | sep | oct | nov | dec
deriving DecidableEq, Repr, Fintype

namespace Month

/-- The discriminant of the `Month` enum (`Jan = 0`, ..., `Dec = 11`). -/
def toNat : Month → Nat
  | .jan => 0 | .feb => 1 | .mar => 2 | .apr => 3 | .may => 4 | .jun => 5
  | .jul => 6 | .aug => 7 | .sep => 8 | .oct => 9 | .nov => 10 | .dec => 11

/-- `Month::from_isize(n).unwrap()` for `n` in `0..=11`; the source only
calls it on discriminants already reduced `% 12`, so the default arm is
unreachable there. -/
def of_nat : Nat → Month
  | 0 => .jan | 1 => .feb | 2 => .mar | 3 => .apr | 4 => .may | 5 => .jun
  | 6 => .jul | 7 => .aug | 8 => .sep | 9 => .oct | 10 => .nov | 11 => .dec
  | _ => .jan

/-- `Month::next`: successor with wrapping. -/
def next (m : Month) : Month := of_nat ((m.toNat + 1) % 12)

/-- `Month::prev`: predecessor with wrapping. -/
def prev (m : Month) : Month := of_nat ((m.toNat + 11) % 12)

/-- `Month::count`: number of days of the month in the given year. -/
def count (m : Month) (year : Nat) : Nat :=
  match m with
  | .jan | .mar | .may | .jul | .aug | .oct | .dec => 31
  | .apr | .jun | .sep | .nov => 30
  | .feb => if is_leap year then 29 else 28

/-- Lookup in the array `[0, 31, 59, 90, 120, 151, 181, 212, 243, 273,
304, 334]` indexed by `self.month as usize` (`Date::index`). -/
def cum : Month → Nat
  | .jan => 0 | .feb => 31 | .mar => 59 | .apr => 90 | .may => 120
  | .jun => 151 | .jul => 181 | .aug => 212 | .sep => 243 | .oct => 273
  | .nov => 304 | .dec => 334

/-- 3-letter display form (`Display for Month`). -/
def render : Month → String
  | .jan => "Jan" | .feb => "Feb" | .mar => "Mar" | .apr => "Apr"
  | .may => "May" | .jun => "Jun" | .jul => "Jul" | .aug => "Aug"
  | .sep => "Sep" | .oct => "Oct" | .nov => "Nov" | .dec => "Dec"

end Month

/-- `Date { year: u16, month: Month, day: u8 }`. -/
structure Date where
  year : Nat
  month : Month
  day : Nat
deriving DecidableEq, Repr

/-- The derived `Ord` of `Date` is lexicographic on
`(year, month discriminant, day)`; we realize it by lifting along the
key into lexicographic products. -/
def Date.key (d : Date) : ℕ ×ₗ (ℕ ×ₗ ℕ) := toLex (d.year, toLex (d.month.toNat, d.day))

instance : LinearOrder Date :=
  LinearOrder.lift' Date.key (by
    intro a b h
    obtain ⟨ya, ma, da⟩ := a
    obtain ⟨yb, mb, db⟩ := b
    simp only [Date.key, toLex_inj, Prod.mk.injEq] at h
    simp only [Date.mk.injEq]
    refine ⟨h.1, ?_, h.2.2⟩
    have hm : ma.toNat = mb.toNat := h.2.1
    revert hm
    cases ma <;> cases mb <;> decide)

/-- Wrapping `as u8` cast from `isize` (`count as u8`, `(-count) as u8`). -/
def as_u8 (n : Int) : Nat := (n % 256).toNat

/-- Wrapping `as u16` cast from `isize` (`year as u16`). -/
def as_u16 (n : Int) : Nat := (n % 65536).toNat

/-- Count of leap years up to `y`, the `leaps` helper inside
`Date::index` (`(years / 4) - (years / 100) + (years / 400)`). -/
def leaps_before (y : Nat) : Nat := y / 4 - y / 100 + y / 400

namespace Date

/-- `Date::index`: biject dates onto integers. -/
def index (d : Date) : Nat :=
  let years := if d.month.toNat ≤ 1 then d.year - 1 else d.year
  d.year * 365 + d.day + d.month.cum + leaps_before years

/-- `Date::weekday` as the discriminant of the `Weekday` enum
(`Mon = 0`, ..., `Sun = 6`): `(index - 2) % 7`. -/
def weekday (d : Date) : Nat := (d.index - 2) % 7

/-- `Date::next`: single-day step with month/year rollover. -/
def next (d : Date) : Date :=
  if d.month.count d.year = d.day then
    if d.month = .dec then ⟨d.year + 1, .jan, 1⟩
    else ⟨d.year, d.month.next, 1⟩
  else ⟨d.year, d.month, d.day + 1⟩

/-- `Date::prev`: single-day step backward.  (At `year = 0` the source's
`u16` subtraction would panic; `Nat` subtraction keeps the year at `0`,
a state never reached from supported years.) -/
def prev (d : Date) : Date :=
  if d.day = 1 then
    if d.month = .jan then ⟨d.year - 1, .dec, 31⟩
    else ⟨d.year, d.month.prev, (d.month.prev).count d.year⟩
  else ⟨d.year, d.month, d.day - 1⟩

/-- `Date::jump_month`: the two wrapping `while` loops compute exactly
the floored divmod of `month as isize + count` by 12, after which the
year is cast back `as u16` and the day clamped to the target month. -/
def jump_month (d : Date) (count : Int) : Date :=
  let mi : Int := d.month.toNat + count
  let year := as_u16 ((d.year : Int) + mi.fdiv 12)
  let month := Month.of_nat (mi % 12).toNat
  ⟨year, month, min d.day (month.count year)⟩

/-- `Date::jump_year`: add to the year (cast back `as u16`), clamping
`Feb 29` to `Feb 28` when the target year is not leap. -/
def jump_year (d : Date) (count : Int) : Date :=
  let year := as_u16 ((d.year : Int) + count)
  if d.month = .feb ∧ d.day = 29 ∧ ¬ is_leap year then ⟨year, d.month, 28⟩
  else ⟨year, d.month, d.day⟩

/-- The forward walking loop of `Date::jump_day` (`count > 0` branch).
The loop variable strictly decreases, so fuel `count` (supplied by
`jump_day`) is never exhausted; structural recursion on the fuel keeps
the definition kernel-computable. -/
def walk_fwd : Nat → Date → Nat → Date
  | 0, d, _ => d
  | fuel + 1, d, count =>
    if count = 0 then d
    else
      let diff := min (d.month.count d.year - d.day) count
      let d1 : Date := ⟨d.year, d.month, d.day + diff⟩
      if count - diff = 0 then d1
      else walk_fwd fuel d1.next (count - diff - 1)

/-- The backward walking loop of `Date::jump_day` (`count <= 0` branch). -/
def walk_bwd : Nat → Date → Nat → Date
  | 0, d, _ => d
  | fuel + 1, d, count =>
    if count = 0 then d
    else
      let diff := min (d.day - 1) count
      let d1 : Date := ⟨d.year, d.month, d.day - diff⟩
      if count - diff = 0 then d1
      else walk_bwd fuel d1.prev (count - diff - 1)

/-- `Date::jump_day`: approximate via `jump_year`/`jump_month` when
`count > 30`, then walk the residual day by day after casting it
`as u8`; the final `assert_eq!` on the index is modelled by the
`Option` guard (`none` = panic). -/
def jump_day (d : Date) (count : Int) : Option Date :=
  let target : Int := d.index + count
  let dc : Date × Int :=
    if 30 < count then
      let adjust_year := d.jump_year (count.tdiv 365)
      let adjust_month := adjust_year.jump_month ((target - adjust_year.index).tdiv 31)
      (adjust_month, target - adjust_month.index)
    else (d, count)
  let res :=
    if 0 < dc.2 then walk_fwd (as_u8 dc.2) dc.1 (as_u8 dc.2)
    else walk_bwd (as_u8 (-dc.2)) dc.1 (as_u8 (-dc.2))
  if (res.index : Int) = target then some res else none

/-- `Date::start_of_month`. -/
def start_of_month (d : Date) : Date := ⟨d.year, d.month, 1⟩

/-- `Date::end_of_month`. -/
def end_of_month (d : Date) : Date := ⟨d.year, d.month, d.month.count d.year⟩

/-- `Date::start_of_year`. -/
def start_of_year (d : Date) : Date := ⟨d.year, .jan, 1⟩

/-- `Date::end_of_year`. -/
def end_of_year (d : Date) : Date := ⟨d.year, .dec, 31⟩

/-- `Date::start_of_week`: first Monday before the current date. -/
def start_of_week (d : Date) : Option Date := d.jump_day (-(d.weekday : Int))

/-- `Date::end_of_week`: first Sunday after the current date. -/
def end_of_week (d : Date) : Option Date := d.jump_day (6 - (d.weekday : Int))

/-- The loop of `Date::cap_day`: step backward while `day >= target`
within the starting month `m`.  Each `prev` either decrements the day
or leaves the month, so fuel `d.day + 2` (supplied by `cap_day`) is
never exhausted on the dates the source reaches. -/
def cap_day_aux (m : Month) (target : Nat) : Nat → Date → Date
  | 0, d => d
  | fuel + 1, d => if target ≤ d.day ∧ d.month = m then cap_day_aux m target fuel d.prev else d

/-- `Date::cap_day`. -/
def cap_day (d : Date) (target : Nat) : Date := cap_day_aux d.month target (d.day + 2) d

end Date

/-- Day legality: exactly the invariant `Date::from` validates for the
day field (`1 <= day <= month.count(year)`). -/
def ValidDay (d : Date) : Prop := 1 ≤ d.day ∧ d.day ≤ d.month.count d.year

instance (d : Date) : Decidable (ValidDay d) := by unfold ValidDay; infer_instance

/-- A compact strictly monotone encoding of the lexicographic order on
day-legal dates, used as an induction measure. -/
def Date.enc (d : Date) : Nat := d.year * 384 + d.month.toNat * 32 + d.day

/-! ## Date validation (`Date::from`, `DateError`) -/

/-- `DateError`: ways a user-supplied date can be wrong. -/
inductive DateError where
  | UnsupportedYear (y : Nat)
  | NotBissextile (y : Nat)
  | MonthTooShort (m : Month) (d : Nat)
  | InvalidDay (d : Nat)
deriving DecidableEq, Repr

instance {ε α : Type} [DecidableEq ε] [DecidableEq α] : DecidableEq (Except ε α)
  | .ok a, .ok b => decidable_of_iff (a = b) (by simp)
  | .ok _, .error _ => isFalse (by intro h; cases h)
  | .error _, .ok _ => isFalse (by intro h; cases h)
  | .error a, .error b => decidable_of_iff (a = b) (by simp)

/-- `Date::from`: validate year-month-day into a date. -/
def Date.from' (year : Nat) (month : Month) (day : Nat) : Except DateError Date :=
  if ¬ (1000 ≤ year ∧ year ≤ 9999) then .error (.UnsupportedYear year)
  else if day = 0 ∨ 31 < day then .error (.InvalidDay day)
  else if day ≤ month.count year then .ok ⟨year, month, day⟩
  else if 30 ≤ day then .error (.MonthTooShort month day)
  else .error (.NotBissextile year)

/-! ## Interval algebra (`src/util/period.rs`) -/

/-- `Between(a, b)`: the inclusive range of values from `a` to `b`.
Modelled as a plain pair, `.fst`/`.snd` being the Rust fields `.0`/`.1`. -/
abbrev Between (T : Type) := T × T

/-- The `Minimax` trait: an order with `MIN`/`MAX` sentinels. -/
class Minimax (T : Type) extends LinearOrder T where
  MIN : T
  MAX : T

/-- The `impl Minimax for i64` of the source, with `i64` modelled as
`Int` carrying the two's-complement bounds as sentinels. -/
instance : Minimax Int where
  MIN := -(2 ^ 63)
  MAX := 2 ^ 63 - 1

/-- `Interval<T>`: a possibly one-sided or degenerate range. -/
inductive Interval (T : Type) where
  | between (lo : T) (hi : T)
  | after (lo : T)
  | before (hi : T)
  | empty
  | unbounded
deriving DecidableEq, Repr

namespace Interval

/-- `Interval::into_between` (note: the source maps `Before(end)` to
`(T::MAX, end)`). -/
def into_between {T : Type} [Minimax T] : Interval T → Between T
  | .between lo hi => (lo, hi)
  | .after lo => (lo, Minimax.MAX)
  | .before hi => (Minimax.MAX, hi)
  | .empty => (Minimax.MAX, Minimax.MIN)
  | .unbounded => (Minimax.MIN, Minimax.MAX)

/-- `Interval::normalized`: collapse an inverted `Between` to `Empty`. -/
def normalized {T : Type} [LinearOrder T] : Interval T → Interval T
  | .between lo hi => if lo > hi then .empty else .between lo hi
  | i => i

/-- The shape `normalized` guarantees: no `Between(lo, hi)` with
`lo > hi`. -/
def IsNormalized {T : Type} [LinearOrder T] : Interval T → Prop
  | .between lo hi => lo ≤ hi
  | _ => True

/-- `Interval::intersect`: exhaustive case analysis, then `normalized`. -/
def intersect {T : Type} [LinearOrder T] (a b : Interval T) : Interval T :=
  Interval.normalized (match a, b with
   | _, .empty => .empty
   | .empty, _ => .empty
   | lhs, .unbounded => lhs
   | .unbounded, rhs => rhs
   | .between lo1 hi1, .between lo2 hi2 => .between (max lo1 lo2) (min hi1 hi2)
   | .after lo1, .between lo2 hi2 => .between (max lo1 lo2) hi2
   | .before hi1, .between lo2 hi2 => .between lo2 (min hi1 hi2)
   | .between lo1 hi1, .after lo2 => .between (max lo1 lo2) hi1
   | .between lo1 hi1, .before hi2 => .between lo1 (min hi1 hi2)
   | .after lo1, .after lo2 => .after (max lo1 lo2)
   | .after lo1, .before hi2 => .between lo1 hi2
   | .before hi1, .after lo2 => .between lo2 hi1
   | .before hi1, .before hi2 => .before (min hi1 hi2))

/-- `Interval::unite`: exhaustive case analysis, then `normalized`. -/
def unite {T : Type} [LinearOrder T] (a b : Interval T) : Interval T :=
  Interval.normalized (match a, b with
   | _, .unbounded => .unbounded
   | .unbounded, _ => .unbounded
   | lhs, .empty => lhs
   | .empty, rhs => rhs
   | .between lo1 hi1, .between lo2 hi2 => .between (min lo1 lo2) (max hi1 hi2)
   | .after lo1, .between lo2 hi2 => .between (min lo1 lo2) hi2
   | .before hi1, .between lo2 hi2 => .between lo2 (max hi1 hi2)
   | .between lo1 hi1, .after lo2 => .between (min lo1 lo2) hi1
   | .between lo1 hi1, .before hi2 => .between lo1 (max hi1 hi2)
   | .after lo1, .after lo2 => .after (min lo1 lo2)
   | .after lo1, .before hi2 => .between lo1 hi2
   | .before hi1, .after lo2 => .between lo2 hi1
   | .before hi1, .before hi2 => .before (max hi1 hi2))

end Interval

/-- `Between::into_interval`. -/
def Between.into_interval {T : Type} [Minimax T] (b : Between T) : Interval T :=
  if b.1 > b.2 then .empty
  else if b.1 = Minimax.MIN then
    if b.2 = Minimax.MAX then .unbounded else .before b.2
  else if b.2 = Minimax.MAX then .after b.1
  else .between b.1 b.2

/-- `Between::unite` (componentwise, assumes non-empty operands). -/
def Between.unite {T : Type} [LinearOrder T] (a b : Between T) : Between T :=
  (min a.1 b.1, max a.2 b.2)

/-- `Between::intersect` (componentwise, assumes non-empty operands). -/
def Between.intersect {T : Type} [LinearOrder T] (a b : Between T) : Between T :=
  (max a.1 b.1, min a.2 b.2)

/-! ## Entries, amounts and spans (`src/util/entry.rs`) -/

/-- `Amount(isize)`: money in cents; modelled as a bare `Int`. -/
abbrev Amount := Int

/-- `Display for Amount` (`"{}{}.{:02}€"` on sign, `abs / 100`,
`(a % 100).abs()`). -/
def Amount.render (a : Amount) : String :=
  (if 0 ≤ a then "" else "-") ++ toString (a.natAbs / 100) ++ "." ++
    (let c := a.natAbs % 100
     (if c < 10 then "0" else "") ++ toString c) ++ "€"

/-- `Category`: the eight kinds of expenses. -/
inductive Category where
  | salary | home | school | cleaning | movement | tech | food | fun
deriving DecidableEq, Repr, Fintype

/-- `Duration`: granularity of a `Span`. -/
inductive Duration where
  | day | week | month | year
deriving DecidableEq, Repr

/-- `Window`: position of a `Span` relative to its reference date. -/
inductive Window where
  | current | posterior | anterior | precedent | successor
deriving DecidableEq, Repr

/-- `Span { duration, window, count: usize }`. -/
structure Span where
  duration : Duration
  window : Window
  count : Nat
deriving DecidableEq, Repr

/-- `Entry`: an expense record.  The `tag` is `Option<Tag>` in
`src/util/entry.rs`. -/
structure Entry where
  value : Amount
  cat : Category
  period : Between Date
  length : Nat
  tag : Option String
deriving DecidableEq, Repr

namespace Entry

/-- `Entry::from`: aggregate the fields, caching the period length. -/
def from' (value : Amount) (cat : Category) (period : Between Date) (tag : String) : Entry :=
  ⟨value, cat, period, period.2.index - period.1.index + 1, some tag⟩

/-- `Entry::intersect_loss`: prorate the value over the overlap with
`period`, discarding the label.  Rust's truncating signed division is
`Int.tdiv`. -/
def intersect_loss (e : Entry) (period : Between Date) : Option Entry :=
  let start := max period.1 e.period.1
  let stop := min period.2 e.period.2
  if start > stop then none
  else
    let idx_old : Int := e.period.1.index
    let before_end := (e.value * ((stop.index : Int) + 1 - idx_old)).tdiv e.length
    let before_start := (e.value * ((start.index : Int) - idx_old)).tdiv e.length
    some ⟨before_end - before_start, e.cat, (start, stop),
          stop.index - start.index + 1, none⟩

/-- `Entry::intersect`: the label-preserving variant. -/
def intersect (e : Entry) (period : Between Date) : Option Entry :=
  (e.intersect_loss period).map (fun e' => { e' with tag := e.tag })

/-- Apply `intersect_loss` to a list of sub-periods, succeeding only if
every piece overlaps (the shape of the resplitting scenario). -/
def intersect_all (e : Entry) : List (Between Date) → Option (List Entry)
  | [] => some []
  | p :: rest => do
      let x ← e.intersect_loss p
      let xs ← intersect_all e rest
      pure (x :: xs)

end Entry

/-- `Span::period`: resolve the 20 `(duration, window)` cases to a
concrete date range.  A `none` result models a panic inside one of the
date jumps. -/
def Span.resolve (s : Span) (dt : Date) : Option (Between Date) :=
  let nb : Int := s.count
  match s.duration, s.window with
  | .day, .precedent => do pure (← dt.jump_day (-nb), dt.prev)
  | .day, .successor => do pure (dt.next, ← dt.jump_day nb)
  | .day, .anterior => do pure ((← dt.jump_day (-nb)).next, dt)
  | .day, _ => do pure (dt, (← dt.jump_day nb).prev)
  | .week, .current => do pure (← dt.start_of_week, ← (← dt.end_of_week).jump_day (7 * (nb - 1)))
  | .week, .anterior => do pure ((← dt.jump_day (-(7 * nb))).next, dt)
  | .week, .posterior => do pure (dt, (← dt.jump_day (7 * nb)).prev)
  | .week, .precedent => do
      let d ← dt.start_of_week
      pure (← d.jump_day (-(7 * nb)), d.prev)
  | .week, .successor => do
      let d ← dt.end_of_week
      pure (d.next, ← d.jump_day (7 * nb))
  | .month, .current => do pure (dt.start_of_month, (dt.jump_month (nb - 1)).end_of_month)
  | .month, .posterior => do pure (dt, (dt.jump_month nb).cap_day dt.day)
  | .month, .anterior => do pure ((dt.jump_month (-nb)).next, dt)
  | .month, .precedent => do
      let d := dt.start_of_month
      pure (d.jump_month (-nb), d.prev)
  | .month, .successor => do
      let d := dt.end_of_month
      pure (d.next, d.jump_month nb)
  | .year, .current => do pure (dt.start_of_year, (dt.end_of_year).jump_year (nb - 1))
  | .year, .posterior => do pure (dt, (dt.jump_year nb).cap_day dt.day)
  | .year, .anterior => do pure ((dt.jump_year (-nb)).next, dt)
  | .year, .successor => do
      let d := dt.end_of_year
      pure (d.next, d.jump_year nb)
  | .year, .precedent => do
      let d := dt.start_of_year
      pure (d.jump_year (-nb), d.prev)

/-! ## Summaries and calendars (`src/lib/summary.rs`) -/

/-- `Summary`: one reporting bucket.  The `[Amount; Category::COUNT]`
array is modelled as a function out of the finite `Category` type. -/
structure Summary where
  period : Between Date
  total : Amount
  categories : Category → Amount

instance : DecidableEq Summary := fun a b => by
  obtain ⟨pa, ta, ca⟩ := a
  obtain ⟨pb, tb, cb⟩ := b
  exact decidable_of_iff (pa = pb ∧ ta = tb ∧ ca = cb) (by simp [Summary.mk.injEq])

instance : Inhabited Summary := ⟨⟨(⟨0, .jan, 0⟩, ⟨0, .jan, 0⟩), 0, fun _ => 0⟩⟩

namespace Summary

/-- `Summary::from_period`: initialize blank. -/
def from_period (period : Between Date) : Summary :=
  ⟨period, 0, fun _ => 0⟩

/-- `Summary::from_date`: initialize blank for a single day. -/
def from_date (date : Date) : Summary := from_period (date, date)

/-- `Summary::query`. -/
def query (s : Summary) (cat : Category) : Amount := s.categories cat

/-- `impl AddAssign<&Entry> for Summary`: intersect the entry with the
summary's period and accumulate the prorated value. -/
def add_entry (s : Summary) (entry : Entry) : Summary :=
  match entry.intersect_loss s.period with
  | none => s
  | some e =>
      { s with
        categories := Function.update s.categories e.cat (s.categories e.cat + e.value),
        total := s.total + e.value }

end Summary

namespace Calendar

/-- `Calendar::from_iter`: pair up consecutive boundary dates, each
bucket ending the day before the next boundary (`none` models the
`assert!(start < end)` panic). -/
def from_iter : List Date → Option (List Summary)
  | a :: b :: rest =>
      if a < b then (from_iter (b :: rest)).map (Summary.from_period (a, b.prev) :: ·)
      else none
  | _ => some []

/-- The loop of `Calendar::from_step`, generalized so that the step
function itself may panic (outer `none`); `some none` is the step
returning `None` and ending the loop.  The source loop has no built-in
bound, so the recursion is fuelled; running out of fuel is also `none`. -/
def from_step_aux (step : Date → Option (Option Date)) : Nat → Date → Option (List Summary)
  | 0, _ => none
  | fuel + 1, start =>
    match step start with
    | none => none
    | some none => some []
    | some (some stop) =>
        if start < stop then
          (from_step_aux step fuel stop).map (Summary.from_period (start, stop.prev) :: ·)
        else none

/-- `Calendar::from_step`. -/
def from_step (fuel : Nat) (start : Date) (step : Date → Option Date) : Option (List Summary) :=
  from_step_aux (fun d => some (step d)) fuel start

/-- The step closure of `Calendar::from_spacing` (a `none` from
`jump_day` is a panic of the closure). -/
def spacing_step (period : Between Date) (duration : Duration) (count : Nat)
    (date : Date) : Option (Option Date) :=
  if period.2 ≤ date then some none
  else
    match duration with
    | .day => (date.jump_day count).map (fun next => some (min period.2 next))
    | .week => (date.jump_day (count * 7)).map (fun next => some (min period.2 next))
    | .month => some (some (min period.2 (date.jump_month count)))
    | .year => some (some (min period.2 (date.jump_year count)))

/-- `Calendar::from_spacing`. -/
def from_spacing (fuel : Nat) (period : Between Date) (duration : Duration)
    (count : Nat) : Option (List Summary) :=
  from_step_aux (spacing_step period duration count) fuel period.1

/-- The recursion of `Calendar::dichotomy_aux`; `stop - start` strictly
decreases, so fuel `stop - start` (supplied by `dichotomy_aux`) is never
exhausted. -/
def dichotomy_fuel (items : List Summary) (target : Date) : Nat → Nat → Nat → Nat
  | 0, start, _ => start
  | fuel + 1, start, stop =>
    if start + 1 ≥ stop then start
    else
      let mid := (start + stop) / 2
      if (items.getD mid default).period.1 > target then dichotomy_fuel items target fuel start mid
      else dichotomy_fuel items target fuel mid stop

/-- `Calendar::dichotomy_aux`: binary search on bucket start dates. -/
def dichotomy_aux (items : List Summary) (target : Date) (start stop : Nat) : Nat :=
  dichotomy_fuel items target (stop - start) start stop

/-- `Calendar::dichotomy_idx`: first and last overlapping bucket
indices, or `none`. -/
def dichotomy_idx (items : List Summary) (period : Between Date) : Option (Nat × Nat) :=
  if items.length = 0 then none
  else
    let start := dichotomy_aux items period.1 0 items.length
    let stop := dichotomy_aux items period.2 0 items.length
    if start ≤ stop ∧ (items.getD stop default).period.1 ≤ period.2 ∧
        (items.getD stop default).period.2 ≥ period.1 then
      some (start, stop)
    else none

/-- `Calendar::register` restricted to a single entry: add it to every
bucket of its overlapping range (`*summary += item` over the slice
`[start..=end]`). -/
def register_one (items : List Summary) (entry : Entry) : List Summary :=
  match dichotomy_idx items entry.period with
  | none => items
  | some (start, stop) =>
      items.mapIdx (fun i s => if start ≤ i ∧ i ≤ stop then s.add_entry entry else s)

/-- `Calendar::register`: add all entries, in order. -/
def register (items : List Summary) (entries : List Entry) : List Summary :=
  entries.foldl register_one items

end Calendar

/-- The calendar contiguity invariant: each bucket ends the day before
the next one starts. -/
def contiguous (items : List Summary) : Prop :=
  List.Chain' (fun s t => s.period.2.next = t.period.1) items

instance (items : List Summary) : Decidable (contiguous items) := by
  unfold contiguous; infer_instance

/-! ## Diagnostics (`src/load/error.rs`) -/

/-- A source location; the pest span carries no semantic content here,
so an opaque string stands for `(&str, pest::Span)`. -/
abbrev Loc := String

/-- The items of an `Error` report: source block, note, or hint. -/
inductive ErrItem where
  | block (loc : Loc) (msg : String)
  | text (msg : String)
  | hint (msg : String)
deriving DecidableEq, Repr

/-- `Error`: one diagnostic, fatal by default. -/
structure ErrorModel where
  fatal : Bool
  label : String
  items : List ErrItem
deriving DecidableEq, Repr

/-- `Record`: the diagnostic accumulator.  Its `fatal` counter counts
only `contents[..len-1]`; the last error is counted lazily. -/
structure Record where
  fatal : Nat
  contents : List ErrorModel
deriving DecidableEq, Repr

namespace Record

/-- `Record::new`. -/
def new : Record := ⟨0, []⟩

/-- `Record::last_is_fatal`. -/
def last_is_fatal (r : Record) : Bool :=
  (r.contents.getLast?.map ErrorModel.fatal).getD false

/-- `Record::is_fatal`. -/
def is_fatal (r : Record) : Bool := decide (0 < r.fatal) || r.last_is_fatal

/-- `Record::count_errors`. -/
def count_errors (r : Record) : Nat := r.fatal + if r.last_is_fatal then 1 else 0

/-- `Record::count_warnings`. -/
def count_warnings (r : Record) : Nat := r.contents.length - r.count_errors

/-- `Record::make`: flush the lazy count and append a fresh (fatal)
error with the given label. -/
def make (r : Record) (label : String) : Record :=
  ⟨r.fatal + if r.last_is_fatal then 1 else 0, r.contents ++ [⟨true, label, []⟩]⟩

/-- The builder methods returned by `make` act on the last error. -/
def modify_last (r : Record) (f : ErrorModel → ErrorModel) : Record :=
  match r.contents.getLast? with
  | none => r
  | some e => ⟨r.fatal, r.contents.dropLast ++ [f e]⟩

/-- `Error::nonfatal` on the error under construction. -/
def nonfatal (r : Record) : Record :=
  r.modify_last (fun e => { e with fatal := false })

/-- `Error::span` on the error under construction. -/
def span_item (r : Record) (loc : Loc) (msg : String) : Record :=
  r.modify_last (fun e => { e with items := e.items ++ [.block loc msg] })

/-- `Error::text` on the error under construction. -/
def text (r : Record) (msg : String) : Record :=
  r.modify_last (fun e => { e with items := e.items ++ [.text msg] })

/-- `Error::hint` on the error under construction. -/
def hint (r : Record) (msg : String) : Record :=
  r.modify_last (fun e => { e with items := e.items ++ [.hint msg] })

end Record

/-! ## Template instantiation (`src/load/template.rs`) -/

/-- `Arg`: a single argument value. -/
inductive Arg where
  | amount (a : Amount)
  | tag (s : String)
deriving DecidableEq, Repr

/-- `Instance`: parameters of a template expansion. -/
structure InstanceT where
  label : String
  positional : List Arg
  named : List (String × Arg)
  loc : Loc
deriving DecidableEq, Repr

/-- `AmountItem`: contents of an amount-field expansion. -/
inductive AmountItem where
  | cst (n : Amount)
  | arg (name : String)
deriving DecidableEq, Repr

/-- `Amount` (the template form): sign flag plus summands. -/
structure AmountTemplate where
  sign : Bool
  sum : List AmountItem
deriving DecidableEq, Repr

/-- `TagItem`: contents of a tag-field expansion. -/
inductive TagItem where
  | day | month | year | date | weekday
  | raw (s : String)
  | arg (name : String)
deriving DecidableEq, Repr

/-- `Template`: a template description. -/
structure TemplateT where
  positional : List String
  named : List (String × Arg)
  value : AmountTemplate
  cat : Category
  span : Span
  tag : List TagItem
  loc : Loc
deriving DecidableEq, Repr

/-- The `HashMap<String, _>` of the source, as an association list whose
`insert` overwrites (unique keys, deterministic order). -/
abbrev SMap (α : Type) := List (String × α)

/-- `HashMap::insert` (overwriting). -/
def SMap.insert {α : Type} (m : SMap α) (k : String) (v : α) : SMap α :=
  (k, v) :: m.filter (fun p => p.1 ≠ k)

/-- `HashMap::get`. -/
def SMap.get {α : Type} (m : SMap α) (k : String) : Option α :=
  (m.find? (fun p => p.1 = k)).map Prod.snd

/-- `Display for Date`: `YYYY-Mmm-DD`, day zero-padded to two digits. -/
def Date.render (d : Date) : String :=
  toString d.year ++ "-" ++ d.month.render ++ "-" ++
    (if d.day < 10 then "0" else "") ++ toString d.day

/-- `Display for Weekday` via the weekday discriminant. -/
def weekday_render (w : Nat) : String :=
  match w with
  | 0 => "Mon" | 1 => "Tue" | 2 => "Wed" | 3 => "Thu" | 4 => "Fri"
  | 5 => "Sat" | _ => "Sun"

/-- `Entry::from` of `src/lib/entry.rs` (the one the instantiation
engine calls): resolve the span into a period and cache its length;
`none` models a panicking date jump inside `Span::period`. -/
def entry_from_span (date : Date) (value : Amount) (cat : Category) (span : Span)
    (tag : String) : Option Entry :=
  (span.resolve date).map (fun period =>
    ⟨value, cat, period, period.2.index - period.1.index + 1, some tag⟩)

/-- `instantiate_amount`: sum constants and resolved arguments, negate
if the sign flag is unset; returns the used-argument set alongside. -/
def instantiate_amount (errs : Record) (inst : InstanceT) (templ : TemplateT)
    (args : SMap Arg) : Record × Option (Amount × List String) :=
  let rec go (errs : Record) (sum : Amount) (used : List String) :
      List AmountItem → Record × Option (Amount × List String)
    | [] => (errs, some (if templ.value.sign then sum else -sum, used))
    | .cst n :: rest => go errs (sum + n) used rest
    | .arg a :: rest =>
      let used := a :: used
      match args.get a with
      | none =>
          (((((errs.make "Missing argument").span_item inst.loc
              ("in instanciation of '" ++ inst.label ++ "'")).text
              ("Argument '" ++ a ++ "' is not provided")).span_item templ.loc
              "defined here").hint "remove argument from template body" |>.hint
              ("or provide a default value: '" ++ a ++ "=0'"), none)
      | some (.amount n) => go errs (sum + n) used rest
      | some (.tag _) =>
          (((((errs.make "Type mismatch").span_item inst.loc
              ("in instanciation of '" ++ inst.label ++ "'")).text
              "Cannot treat tag as a monetary value").span_item templ.loc
              "defined here").hint "make it a value" |>.hint
              "or remove from amount calculation", none)
  go errs 0 [] templ.value.sum

/-- `instanciate_tag`: concatenate literals, date placeholders and
resolved arguments; returns the used-argument set alongside. -/
def instanciate_tag (errs : Record) (inst : InstanceT) (templ : TemplateT)
    (args : SMap Arg) (date : Date) : Record × Option (String × List String) :=
  let rec go (errs : Record) (tag : String) (used : List String) :
      List TagItem → Record × Option (String × List String)
    | [] => (errs, some (tag, used))
    | .day :: rest => go errs (tag ++ toString date.day) used rest
    | .month :: rest => go errs (tag ++ date.month.render) used rest
    | .year :: rest => go errs (tag ++ toString date.year) used rest
    | .date :: rest => go errs (tag ++ date.render) used rest
    | .weekday :: rest => go errs (tag ++ weekday_render date.weekday) used rest
    | .raw s :: rest => go errs (tag ++ s) used rest
    | .arg a :: rest =>
      let used := a :: used
      match args.get a with
      | none =>
          (((((errs.make "Missing argument").span_item inst.loc
              ("in instanciation of '" ++ inst.label ++ "'")).text
              ("Argument '" ++ a ++ "' is not provided")).span_item templ.loc
              "defined here").hint "remove argument from template body" |>.hint
              ("or provide a default value: '" ++ a ++ "=0'"), none)
      | some (.amount n) => go errs (tag ++ n.render) used rest
      | some (.tag t) => go errs (tag ++ t) used rest
  go errs "" [] templ.tag

/-- `build_arguments`: check the positional counts, then zip and insert
defaults and overrides. -/
def build_arguments (errs : Record) (inst : InstanceT) (templ : TemplateT) :
    Record × Option (SMap Arg) :=
  let len_inst := inst.positional.length
  let len_templ := templ.positional.length
  if len_inst ≠ len_templ then
    (((((errs.make "Argcount mismatch").span_item inst.loc
        ("instanciation provides " ++ toString len_inst ++ " arguments")).span_item
        templ.loc ("template expects " ++ toString len_templ ++ " arguments")).text
        "Fix the count mismatch").hint
        (if len_inst > len_templ then
          "remove " ++ toString (len_inst - len_templ) ++ " arguments from instanciation"
         else "provide the " ++ toString (len_templ - len_inst) ++ " missing arguments"),
     none)
  else
    let args := (templ.positional.zip inst.positional).foldl
      (fun (m : SMap Arg) p => m.insert p.1 p.2) []
    let args := templ.named.foldl (fun (m : SMap Arg) p => m.insert p.1 p.2) args
    let args := inst.named.foldl (fun (m : SMap Arg) p => m.insert p.1 p.2) args
    (errs, some args)

/-- The unused-argument / needless-amount hygiene warnings at the end of
`perform_replacements` (the source iterates a `HashMap`; the model
iterates the association list, one deterministic order). -/
def hygiene_warnings (inst : InstanceT) (templ : TemplateT)
    (used_val used_tag : List String) : Record → SMap Arg → Record
  | errs, [] => errs
  | errs, (argname, argval) :: rest =>
    let use_v := used_val.contains argname
    let use_t := used_tag.contains argname
    let errs :=
      if ¬ use_v ∧ ¬ use_t then
        ((((errs.make "Unused argument").nonfatal).span_item inst.loc
           ("in instanciation of '" ++ inst.label ++ "'")).text
           ("Argument '" ++ argname ++ "' is provided but not used")).span_item
           templ.loc "defined here" |>.hint "remove argument or use in template"
      else
        match argval, use_v, use_t with
        | .amount a, false, true =>
          (((((errs.make "Needless amount").nonfatal).span_item inst.loc
             ("in instanciation of '" ++ inst.label ++ "'")).text
             ("Argument '" ++ argname ++ "' has type amount but could be a string")).span_item
             templ.loc "defined here" |>.hint "argument is used only in tag field").hint
             ("change to string '\"" ++ a.render ++ "\"' or use in val field")
        | _, _, _ => errs
    hygiene_warnings inst templ used_val used_tag errs rest

/-- `perform_replacements`: expand amount and tag, then emit hygiene
warnings and build the entry (outer `none` = panic in `Entry::from`). -/
def perform_replacements (errs : Record) (inst : InstanceT) (templ : TemplateT)
    (args : SMap Arg) (date : Date) : Option (Record × Option Entry) :=
  match instantiate_amount errs inst templ args with
  | (errs, none) => some (errs, none)
  | (errs, some (value, used_val)) =>
    match instanciate_tag errs inst templ args date with
    | (errs, none) => some (errs, none)
    | (errs, some (tag, used_tag)) =>
      let errs := hygiene_warnings inst templ used_val used_tag errs args
      match entry_from_span date value templ.cat templ.span tag with
      | none => none
      | some entry => some (errs, some entry)

/-- `instanciate_item`: resolve the template by name, bind arguments,
perform the replacements. -/
def instanciate_item (errs : Record) (inst : InstanceT) (date : Date)
    (templates : SMap TemplateT) : Option (Record × Option Entry) :=
  match templates.get inst.label with
  | none =>
      some ((((errs.make "Undeclared template").span_item inst.loc
              ("attempt to instanciate " ++ inst.label)).text
              ("'" ++ inst.label ++ "' is not declared")).hint "Maybe a typo ?",
            none)
  | some templ =>
    match build_arguments errs inst templ with
    | (errs, none) => some (errs, none)
    | (errs, some args) => perform_replacements errs inst templ args date

/-- One AST item handed to `instanciate`. -/
inductive AstItem where
  | entry (e : Entry)
  | template (name : String) (t : TemplateT)
  | instance' (date : Date) (inst : InstanceT)

/-- The loop of `instanciate`: entries kept, templates collected,
instances expanded (`none` = a panic bubbling out of an expansion). -/
def instanciate_go (templates : SMap TemplateT) (errs : Record)
    (entries : List Entry) : List AstItem → Option (Record × List Entry)
  | [] => some (errs, entries)
  | .entry e :: rest => instanciate_go templates errs (entries ++ [e]) rest
  | .template name t :: rest =>
      instanciate_go (templates.insert name t) errs entries rest
  | .instance' date inst :: rest =>
      match instanciate_item errs inst date templates with
      | none => none
      | some (errs, some e) => instanciate_go templates errs (entries ++ [e]) rest
      | some (errs, none) => instanciate_go templates errs entries rest

/-- `instanciate`. -/
def instanciate (errs : Record) (items : List AstItem) : Option (Record × List Entry) :=
  instanciate_go [] errs [] items

/-! ## Order and index lemmas for dates -/

theorem Month.toNat_lt_twelve (m : Month) : m.toNat < 12 := by cases m <;> decide

theorem Month.toNat_injective : ∀ m m' : Month, m.toNat = m'.toNat → m = m' := by decide

theorem Month.count_pos (m : Month) (y : Nat) : 1 ≤ m.count y := by
  cases m <;> simp [Month.count] <;> split <;> omega

theorem Month.count_le_31 (m : Month) (y : Nat) : m.count y ≤ 31 := by
  cases m <;> simp [Month.count] <;> split <;> omega

theorem Month.toNat_next (m : Month) (h : m ≠ .dec) : m.next.toNat = m.toNat + 1 := by
  cases m <;> simp_all <;> decide

theorem Month.prev_then_next (m : Month) (h : m ≠ .jan) : m.prev.next = m := by
  cases m <;> simp_all <;> decide

theorem Month.next_prev (m : Month) (h : m ≠ .dec) : m.next.prev = m := by
  cases m <;> simp_all <;> decide

theorem Month.prev_ne_self (m : Month) : m.prev ≠ m := by cases m <;> decide

theorem Date.lt_iff (a b : Date) :
    a < b ↔ a.year < b.year ∨ (a.year = b.year ∧
      (a.month.toNat < b.month.toNat ∨ (a.month.toNat = b.month.toNat ∧ a.day < b.day))) := by
  show Date.key a < Date.key b ↔ _
  simp [Date.key, Prod.Lex.lt_iff]

theorem Date.le_iff (a b : Date) :
    a ≤ b ↔ a.year < b.year ∨ (a.year = b.year ∧
      (a.month.toNat < b.month.toNat ∨ (a.month.toNat = b.month.toNat ∧ a.day ≤ b.day))) := by
  show Date.key a ≤ Date.key b ↔ _
  simp [Date.key, Prod.Lex.le_iff, Prod.Lex.lt_iff]

theorem Date.year_le_of_le {a b : Date} (h : a ≤ b) : a.year ≤ b.year := by
  rcases (Date.le_iff a b).mp h with h' | ⟨h', _⟩ <;> omega

theorem is_leap_eq_true_iff (y : Nat) :
    is_leap y = true ↔ ((4 : Nat) ∣ y ∧ (¬ (100 : Nat) ∣ y ∨ (400 : Nat) ∣ y)) := by
  have himp1 : (100 : Nat) ∣ y → (4 : Nat) ∣ y := fun h => dvd_trans ⟨25, rfl⟩ h
  have himp2 : (400 : Nat) ∣ y → (100 : Nat) ∣ y := fun h => dvd_trans ⟨4, rfl⟩ h
  have e4 : (y % 4 = 0) ↔ (4 : Nat) ∣ y := Nat.dvd_iff_mod_eq_zero.symm
  have e100 : (y % 100 = 0) ↔ (100 : Nat) ∣ y := Nat.dvd_iff_mod_eq_zero.symm
  have e400 : (y % 400 = 0) ↔ (400 : Nat) ∣ y := Nat.dvd_iff_mod_eq_zero.symm
  unfold is_leap
  split_ifs with hA hB <;> simp_all <;> tauto

theorem leaps_before_succ (n : Nat) :
    leaps_before (n + 1) = leaps_before n + (if is_leap (n + 1) then 1 else 0) := by
  have h4 := Nat.succ_div n 4
  have h100 := Nat.succ_div n 100
  have h400 := Nat.succ_div n 400
  have hle : n / 100 ≤ n / 4 := Nat.div_le_div_left (by norm_num) (by norm_num)
  have himp1 : (100 : Nat) ∣ n + 1 → (4 : Nat) ∣ n + 1 := fun h => dvd_trans ⟨25, rfl⟩ h
  have himp2 : (400 : Nat) ∣ n + 1 → (100 : Nat) ∣ n + 1 := fun h => dvd_trans ⟨4, rfl⟩ h
  by_cases c4 : (4 : Nat) ∣ n + 1 <;> by_cases c100 : (100 : Nat) ∣ n + 1 <;>
    by_cases c400 : (400 : Nat) ∣ n + 1 <;>
    first
      | exact absurd (himp1 c100) c4
      | exact absurd (himp2 c400) c100
      | (simp [leaps_before, h4, h100, h400, is_leap_eq_true_iff, c4, c100, c400]
         try omega)

theorem is_leap_count_feb (y : Nat) :
    Month.count .feb y = 28 + (if is_leap y then 1 else 0) := by
  simp [Month.count]; split <;> omega

/-- `index(d) + 1 = index(next(d))` for every day-legal date with a
positive year: the tested invariant of `Date::index`. -/
theorem Date.index_next (d : Date) (hv : ValidDay d) (hy : 1 ≤ d.year) :
    d.next.index = d.index + 1 := by
  obtain ⟨y, m, day⟩ := d
  obtain ⟨h1, h2⟩ := hv
  simp only at h1 h2 hy
  have hstep := leaps_before_succ (y - 1)
  have hy' : y - 1 + 1 = y := by omega
  rw [hy'] at hstep
  unfold Date.next
  by_cases hc : m.count y = day
  · by_cases hd : m = .dec
    · subst hd
      simp only [hc, if_pos rfl, if_pos rfl]
      simp only [Month.count] at hc
      simp [Date.index, Month.cum, Month.toNat, Nat.add_sub_cancel]
      omega
    · simp only [hc, if_pos rfl, if_neg hd]
      cases m <;>
        simp_all [Date.index, Month.cum, Month.toNat, Month.next, Month.of_nat,
          Month.count, Nat.add_sub_cancel] <;>
        (try split_ifs at *) <;> omega
  · simp only [if_neg hc]
    simp only [Date.index]
    omega

theorem Date.next_case_day {d : Date} (h : d.month.count d.year ≠ d.day) :
    d.next = ⟨d.year, d.month, d.day + 1⟩ := by
  unfold Date.next
  rw [if_neg h]

theorem Date.next_case_month {d : Date} (h : d.month.count d.year = d.day)
    (h2 : d.month ≠ .dec) : d.next = ⟨d.year, d.month.next, 1⟩ := by
  unfold Date.next
  rw [if_pos h, if_neg h2]

theorem Date.next_case_year {d : Date} (h : d.month.count d.year = d.day)
    (h2 : d.month = .dec) : d.next = ⟨d.year + 1, .jan, 1⟩ := by
  unfold Date.next
  rw [if_pos h, if_pos h2]

theorem Date.prev_case_day {d : Date} (h : d.day ≠ 1) :
    d.prev = ⟨d.year, d.month, d.day - 1⟩ := by
  unfold Date.prev
  rw [if_neg h]

theorem Date.prev_case_month {d : Date} (h : d.day = 1) (h2 : d.month ≠ .jan) :
    d.prev = ⟨d.year, d.month.prev, d.month.prev.count d.year⟩ := by
  unfold Date.prev
  rw [if_pos h, if_neg h2]

theorem Date.prev_case_year {d : Date} (h : d.day = 1) (h2 : d.month = .jan) :
    d.prev = ⟨d.year - 1, .dec, 31⟩ := by
  unfold Date.prev
  rw [if_pos h, if_pos h2]

theorem Date.next_validday {d : Date} (hv : ValidDay d) : ValidDay d.next := by
  obtain ⟨h1, h2⟩ := hv
  by_cases hc : d.month.count d.year = d.day
  · by_cases hd : d.month = .dec
    · rw [Date.next_case_year hc hd]
      exact ⟨le_refl 1, by simp [Month.count]⟩
    · rw [Date.next_case_month hc hd]
      exact ⟨le_refl 1, Month.count_pos _ _⟩
  · rw [Date.next_case_day hc]
    exact ⟨by show 1 ≤ d.day + 1; omega,
           by show d.day + 1 ≤ d.month.count d.year; omega⟩

theorem Date.next_year {d : Date} : d.year ≤ d.next.year ∧ d.next.year ≤ d.year + 1 := by
  unfold Date.next
  split_ifs <;> simp

theorem Date.prev_validday {d : Date} (hv : ValidDay d) : ValidDay d.prev := by
  obtain ⟨h1, h2⟩ := hv
  by_cases hc : d.day = 1
  · by_cases hd : d.month = .jan
    · rw [Date.prev_case_year hc hd]
      exact ⟨by show 1 ≤ 31; omega, by show 31 ≤ Month.count .dec (d.year - 1); simp [Month.count]⟩
    · rw [Date.prev_case_month hc hd]
      exact ⟨Month.count_pos _ _, le_refl _⟩
  · rw [Date.prev_case_day hc]
    exact ⟨by show 1 ≤ d.day - 1; omega, by show d.day - 1 ≤ d.month.count d.year; omega⟩

theorem Date.lt_next (d : Date) : d < d.next := by
  by_cases hc : d.month.count d.year = d.day
  · by_cases hd : d.month = .dec
    · rw [Date.next_case_year hc hd, Date.lt_iff]
      left
      show d.year < d.year + 1
      omega
    · rw [Date.next_case_month hc hd, Date.lt_iff]
      right
      refine ⟨rfl, Or.inl ?_⟩
      show d.month.toNat < d.month.next.toNat
      rw [Month.toNat_next d.month hd]
      omega
  · rw [Date.next_case_day hc, Date.lt_iff]
    right
    exact ⟨rfl, Or.inr ⟨rfl, by show d.day < d.day + 1; omega⟩⟩

theorem Date.next_le_of_lt {d e : Date} (he : ValidDay e) (h : d < e) : d.next ≤ e := by
  obtain ⟨g1, g2⟩ := he
  rw [Date.lt_iff] at h
  have hm12 := Month.toNat_lt_twelve d.month
  have hm12' := Month.toNat_lt_twelve e.month
  by_cases hc : d.month.count d.year = d.day
  · by_cases hd : d.month = .dec
    · rw [Date.next_case_year hc hd, Date.le_iff]
      show d.year + 1 < e.year ∨ (d.year + 1 = e.year ∧
        (Month.toNat .jan < e.month.toNat ∨ (Month.toNat .jan = e.month.toNat ∧ 1 ≤ e.day)))
      have hde : d.month.toNat = 11 := by rw [hd]; decide
      have hcnt : d.day = 31 := by
        rw [hd] at hc
        simpa [Month.count] using hc.symm
      rcases h with h | ⟨h, h'⟩
      · rcases Nat.lt_or_ge (d.year + 1) e.year with hy | hy
        · exact Or.inl hy
        · right
          refine ⟨by omega, ?_⟩
          rcases Nat.eq_zero_or_pos e.month.toNat with hz | hz
          · refine Or.inr ⟨?_, g1⟩
            show (0 : Nat) = e.month.toNat
            omega
          · exact Or.inl hz
      · -- same year after Dec 31: contradicts day legality of `e`
        exfalso
        rcases h' with h' | ⟨h', h''⟩
        · omega
        · have hedec : e.month = .dec := Month.toNat_injective _ _ (by
            have h11 : Month.toNat .dec = 11 := by decide
            omega)
          rw [hedec] at g2
          have : Month.count .dec e.year = 31 := by simp [Month.count]
          omega
    · rw [Date.next_case_month hc hd, Date.le_iff]
      show d.year < e.year ∨ (d.year = e.year ∧
        (d.month.next.toNat < e.month.toNat ∨ (d.month.next.toNat = e.month.toNat ∧ 1 ≤ e.day)))
      rw [Month.toNat_next d.month hd]
      rcases h with h | ⟨h, h'⟩
      · exact Or.inl h
      · right
        refine ⟨h, ?_⟩
        rcases h' with h' | ⟨h', h''⟩
        · rcases Nat.lt_or_ge (d.month.toNat + 1) e.month.toNat with hx | hx
          · exact Or.inl hx
          · exact Or.inr ⟨by omega, g1⟩
        · exfalso
          have hem : e.month = d.month := Month.toNat_injective _ _ h'.symm
          rw [hem, ← h] at g2
          omega
  · rw [Date.next_case_day hc, Date.le_iff]
    show d.year < e.year ∨ (d.year = e.year ∧
      (d.month.toNat < e.month.toNat ∨ (d.month.toNat = e.month.toNat ∧ d.day + 1 ≤ e.day)))
    rcases h with h | ⟨h, h'⟩
    · exact Or.inl h
    · right
      refine ⟨h, ?_⟩
      rcases h' with h' | ⟨h', h''⟩
      · exact Or.inl h'
      · exact Or.inr ⟨h', by omega⟩

theorem Date.enc_lt_of_lt {d e : Date} (hd31 : d.day ≤ 31) (h : d < e) : d.enc < e.enc := by
  rw [Date.lt_iff] at h
  have h12 := Month.toNat_lt_twelve d.month
  have h12' := Month.toNat_lt_twelve e.month
  unfold Date.enc
  rcases h with h | ⟨h, h'⟩
  · omega
  · rcases h' with h' | ⟨h', h''⟩ <;> omega

theorem Date.index_lt_index : ∀ (n : Nat) {d e : Date}, e.enc - d.enc ≤ n →
    ValidDay d → ValidDay e → 1 ≤ d.year → d < e → d.index < e.index := by
  intro n
  induction n with
  | zero =>
    intro d e hn hd he hy h
    have := Date.enc_lt_of_lt (le_trans hd.2 (Month.count_le_31 _ _)) h
    omega
  | succ n ih =>
    intro d e hn hd he hy h
    rcases eq_or_lt_of_le (Date.next_le_of_lt he h) with heq | hlt
    · rw [← heq, Date.index_next d hd hy]
      omega
    · have henc1 := Date.enc_lt_of_lt (le_trans hd.2 (Month.count_le_31 _ _)) (Date.lt_next d)
      have henc2 := Date.enc_lt_of_lt
        (le_trans (Date.next_validday hd).2 (Month.count_le_31 _ _)) hlt
      have := ih (d := d.next) (e := e) (by omega) (Date.next_validday hd) he
        (by have := Date.next_year (d := d); omega) hlt
      rw [Date.index_next d hd hy] at this
      omega

/-- Strict monotonicity of `Date::index` with respect to the derived
lexicographic order, on day-legal dates with positive year. -/
theorem Date.index_strict_mono {d e : Date} (hd : ValidDay d) (he : ValidDay e)
    (hy : 1 ≤ d.year) (h : d < e) : d.index < e.index :=
  Date.index_lt_index (e.enc - d.enc) (le_refl _) hd he hy h

theorem Date.index_mono {d e : Date} (hd : ValidDay d) (he : ValidDay e)
    (hy : 1 ≤ d.year) (h : d ≤ e) : d.index ≤ e.index := by
  rcases eq_or_lt_of_le h with rfl | h'
  · exact le_refl _
  · exact le_of_lt (Date.index_strict_mono hd he hy h')

theorem Date.day_add_cum_le {d : Date} (hv : ValidDay d) : d.day + d.month.cum ≤ 365 := by
  have h2 := hv.2
  cases hm : d.month <;> rw [hm] at h2 <;>
    simp only [Month.cum, Month.count] at h2 ⊢ <;>
    (try split_ifs at h2) <;> omega

theorem leaps_before_le (y : Nat) : leaps_before y ≤ y := by
  have h4 : y / 4 ≤ y := Nat.div_le_self _ _
  have h400 : y / 400 ≤ y / 4 := Nat.div_le_div_left (by norm_num) (by norm_num)
  have h100 : y / 100 ≤ y / 4 := Nat.div_le_div_left (by norm_num) (by norm_num)
  unfold leaps_before
  omega

theorem Date.index_lower {d : Date} (hv : ValidDay d) : d.year * 365 + 1 ≤ d.index := by
  have := hv.1
  simp only [Date.index]
  omega

theorem Date.index_upper {d : Date} (hv : ValidDay d) :
    d.index ≤ d.year * 365 + 365 + d.year := by
  have h1 := Date.day_add_cum_le hv
  have h2 := leaps_before_le (if d.month.toNat ≤ 1 then d.year - 1 else d.year)
  have h3 : (if d.month.toNat ≤ 1 then d.year - 1 else d.year) ≤ d.year := by
    split_ifs <;> omega
  simp only [Date.index]
  omega

theorem Date.le_of_index_le {d e : Date} (hd : ValidDay d) (he : ValidDay e)
    (hy : 1 ≤ e.year) (h : d.index ≤ e.index) : d ≤ e := by
  by_contra hlt
  exact absurd (Date.index_strict_mono he hd hy (lt_of_not_le hlt)) (by omega)

theorem Date.lt_of_index_lt {d e : Date} (hd : ValidDay d) (he : ValidDay e)
    (hy : 1 ≤ d.year) (h : d.index < e.index) : d < e := by
  by_contra hle
  have hle' : e ≤ d := le_of_not_lt hle
  rcases Nat.eq_zero_or_pos e.year with hz | hz
  · have hu := Date.index_upper he
    have hl := Date.index_lower hd
    rw [hz] at hu
    have : d.year * 365 ≥ 365 := by
      calc d.year * 365 ≥ 1 * 365 := Nat.mul_le_mul_right _ hy
      _ = 365 := by norm_num
    omega
  · exact absurd (Date.index_mono he hd hz hle') (by omega)

/-! ## The interval algebra: C4 and C3 -/

theorem Interval.intersect_comm {T : Type} [LinearOrder T] (a b : Interval T) :
    a.intersect b = b.intersect a := by
  cases a <;> cases b <;>
    simp [Interval.intersect, Interval.normalized, max_comm, min_comm]

theorem Interval.unite_comm {T : Type} [LinearOrder T] (a b : Interval T) :
    a.unite b = b.unite a := by
  cases a <;> cases b <;>
    simp [Interval.unite, Interval.normalized, max_comm, min_comm]

theorem Interval.intersect_self {T : Type} [LinearOrder T] (a : Interval T) :
    a.intersect a = a.normalized := by
  cases a <;> simp [Interval.intersect, Interval.normalized]

theorem Interval.intersect_empty {T : Type} [LinearOrder T] (a : Interval T) :
    a.intersect .empty = .empty := by
  cases a <;> simp [Interval.intersect, Interval.normalized]

theorem Interval.unite_unbounded {T : Type} [LinearOrder T] (a : Interval T) :
    a.unite .unbounded = .unbounded := by
  cases a <;> simp [Interval.unite, Interval.normalized]

theorem Interval.normalized_isNormalized {T : Type} [LinearOrder T] (a : Interval T) :
    a.normalized.IsNormalized := by
  cases a <;> simp [Interval.normalized, Interval.IsNormalized]
  split_ifs with h
  · simp [Interval.IsNormalized]
  · simp [Interval.IsNormalized]
    exact le_of_not_lt h

theorem Interval.intersect_isNormalized {T : Type} [LinearOrder T] (a b : Interval T) :
    (a.intersect b).IsNormalized := by
  unfold Interval.intersect
  exact Interval.normalized_isNormalized _

theorem Interval.unite_isNormalized {T : Type} [LinearOrder T] (a b : Interval T) :
    (a.unite b).IsNormalized := by
  unfold Interval.unite
  exact Interval.normalized_isNormalized _

/-- **C4.** For all intervals over an ordered type: `intersect` and
`unite` are commutative; `a.intersect(a) == a.normalized()`; `Empty` is
absorbing for `intersect`; `Unbounded` is absorbing for `unite`; and
both operations always return a normalized result (no `Between(lo, hi)`
with `lo > hi` is ever returned). -/
theorem C4_interval_algebra {T : Type} [LinearOrder T] (a b : Interval T) :
    a.intersect b = b.intersect a ∧
    a.unite b = b.unite a ∧
    a.intersect a = a.normalized ∧
    a.intersect .empty = .empty ∧
    a.unite .unbounded = .unbounded ∧
    (a.intersect b).IsNormalized ∧
    (a.unite b).IsNormalized :=
  ⟨Interval.intersect_comm a b, Interval.unite_comm a b, Interval.intersect_self a,
   Interval.intersect_empty a, Interval.unite_unbounded a,
   Interval.intersect_isNormalized a b, Interval.unite_isNormalized a b⟩

/-- Witness for C4 at concrete intervals over `Int`. -/
theorem C4_interval_algebra_witness :
    (Interval.between (3 : Int) 7).intersect (.after 5) =
      (Interval.after (5 : Int)).intersect (.between 3 7) ∧
    (Interval.between (3 : Int) 7).unite (.after 5) =
      (Interval.after (5 : Int)).unite (.between 3 7) ∧
    (Interval.between (3 : Int) 7).intersect (.between 3 7) =
      (Interval.between (3 : Int) 7).normalized ∧
    (Interval.between (3 : Int) 7).intersect .empty = .empty ∧
    (Interval.between (3 : Int) 7).unite .unbounded = .unbounded ∧
    ((Interval.between (3 : Int) 7).intersect (.after 5)).IsNormalized ∧
    ((Interval.between (3 : Int) 7).unite (.after 5)).IsNormalized :=
  C4_interval_algebra (Interval.between (3 : Int) 7) (.after 5)

/-- **C3** (counterexample evaluation).  `Before(hi)` does **not**
convert to `Between(MIN, hi)`: `into_between` maps it to
`Between(MAX, hi)` (the `T::MAX` slip in `src/util/period.rs:38`), so
the round trip collapses `Before(0)` over `i64` to `Empty` instead of
reproducing it, while the pair the claim prescribes, `(MIN, 0)`, does
map back to `Before(0)`. -/
theorem C3_before_roundtrip_failure :
    (Interval.before (0 : Int)).into_between = ((2 : Int) ^ 63 - 1, 0) ∧
    Between.into_interval (Interval.before (0 : Int)).into_between = Interval.empty ∧
    Interval.empty ≠ Interval.before (0 : Int) ∧
    Between.into_interval ((-(2 : Int) ^ 63, (0 : Int)) : Between Int) = Interval.before 0 ∧
    Between.into_interval (Interval.after (5 : Int)).into_between = Interval.after 5 ∧
    (Interval.unbounded : Interval Int).into_between = (-(2 : Int) ^ 63, (2 : Int) ^ 63 - 1) ∧
    (Interval.empty : Interval Int).into_between = ((2 : Int) ^ 63 - 1, -(2 : Int) ^ 63) := by
  refine ⟨?_, ?_, ?_, ?_, ?_, ?_, ?_⟩ <;> decide

/-! ## Date validation: C8; jump_day totality: C2, C5 -/

/-- **C8.** `Date::from` validates according to the 400/100/4 leap-year
rule: `Date::from(2020, Feb, 29)` succeeds, `Date::from(2021, Feb, 29)`
fails with `NotBissextile(2021)`; a year outside `1000..=9999` yields
`UnsupportedYear`, a day outside `1..=31` (checked second) yields
`InvalidDay`, a day that fits the month's length for that year yields
`Ok`, and otherwise `MonthTooShort` (day ≥ 30) or `NotBissextile`, each
carrying the offending values. -/
theorem C8_date_from_validation :
    Date.from' 2020 .feb 29 = .ok ⟨2020, .feb, 29⟩ ∧
    Date.from' 2021 .feb 29 = .error (.NotBissextile 2021) ∧
    (∀ y : Nat, is_leap y = true ↔ ((4 : Nat) ∣ y ∧ (¬ (100 : Nat) ∣ y ∨ (400 : Nat) ∣ y))) ∧
    (is_leap 2000 = true ∧ is_leap 1900 = false ∧ is_leap 2100 = false ∧ is_leap 2004 = true) ∧
    (∀ (y : Nat) (m : Month) (d : Nat), ¬ (1000 ≤ y ∧ y ≤ 9999) →
      Date.from' y m d = .error (.UnsupportedYear y)) ∧
    (∀ (y : Nat) (m : Month) (d : Nat), (1000 ≤ y ∧ y ≤ 9999) → (d = 0 ∨ 31 < d) →
      Date.from' y m d = .error (.InvalidDay d)) ∧
    (∀ (y : Nat) (m : Month) (d : Nat), (1000 ≤ y ∧ y ≤ 9999) → 1 ≤ d → d ≤ 31 →
      d ≤ m.count y → Date.from' y m d = .ok ⟨y, m, d⟩) ∧
    (∀ (y : Nat) (m : Month) (d : Nat), (1000 ≤ y ∧ y ≤ 9999) → 1 ≤ d → d ≤ 31 →
      m.count y < d → 30 ≤ d → Date.from' y m d = .error (.MonthTooShort m d)) ∧
    (∀ (y : Nat) (m : Month) (d : Nat), (1000 ≤ y ∧ y ≤ 9999) → 1 ≤ d → d ≤ 31 →
      m.count y < d → d < 30 → Date.from' y m d = .error (.NotBissextile y)) := by
  refine ⟨by decide, by decide, is_leap_eq_true_iff, by decide, ?_, ?_, ?_, ?_, ?_⟩
  · intro y m d hy
    unfold Date.from'
    rw [if_pos hy]
  · intro y m d hy hd
    unfold Date.from'
    rw [if_neg (not_not_intro hy), if_pos hd]
  · intro y m d hy h1 h31 hcnt
    unfold Date.from'
    rw [if_neg (not_not_intro hy), if_neg (by omega : ¬ (d = 0 ∨ 31 < d)), if_pos hcnt]
  · intro y m d hy h1 h31 hcnt h30
    unfold Date.from'
    rw [if_neg (not_not_intro hy), if_neg (by omega : ¬ (d = 0 ∨ 31 < d)),
      if_neg (by omega : ¬ d ≤ m.count y), if_pos h30]
  · intro y m d hy h1 h31 hcnt h30
    unfold Date.from'
    rw [if_neg (not_not_intro hy), if_neg (by omega : ¬ (d = 0 ∨ 31 < d)),
      if_neg (by omega : ¬ d ≤ m.count y), if_neg (by omega : ¬ 30 ≤ d)]

/-- Witness for C8: the universally quantified clauses instantiated at
concrete dates. -/
theorem C8_date_from_validation_witness :
    Date.from' 999 .jan 5 = .error (.UnsupportedYear 999) ∧
    Date.from' 2020 .jan 45 = .error (.InvalidDay 45) ∧
    Date.from' 2020 .mar 20 = .ok ⟨2020, .mar, 20⟩ ∧
    Date.from' 2020 .apr 31 = .error (.MonthTooShort .apr 31) ∧
    Date.from' 2023 .feb 29 = .error (.NotBissextile 2023) :=
  ⟨C8_date_from_validation.2.2.2.2.1 999 .jan 5 (by decide),
   C8_date_from_validation.2.2.2.2.2.1 2020 .jan 45 (by decide) (by decide),
   C8_date_from_validation.2.2.2.2.2.2.1 2020 .mar 20 (by decide) (by decide) (by decide)
     (by decide),
   C8_date_from_validation.2.2.2.2.2.2.2.1 2020 .apr 31 (by decide) (by decide) (by decide)
     (by decide) (by decide),
   C8_date_from_validation.2.2.2.2.2.2.2.2 2023 .feb 29 (by decide) (by decide) (by decide)
     (by decide) (by decide)⟩

/-- **C2** (counterexample evaluation).  `jump_day(-256)` panics: the
negative branch casts `(-count) as u8`, which wraps `256` to `0`, the
walk moves nowhere, and the function's own `assert_eq!` on the index
fails — even though the mathematically correct result, `2019-Apr-20`,
is a legal date well inside the supported year range
(`index + 256 = index(2020-Jan-1)`). -/
theorem C2_jump_day_wrap_failure :
    (⟨2020, .jan, 1⟩ : Date).jump_day (-256) = none ∧
    ValidDay (⟨2019, .apr, 20⟩ : Date) ∧
    1000 ≤ (⟨2019, .apr, 20⟩ : Date).year ∧ (⟨2019, .apr, 20⟩ : Date).year ≤ 9999 ∧
    (⟨2019, .apr, 20⟩ : Date).index + 256 = (⟨2020, .jan, 1⟩ : Date).index := by
  refine ⟨?_, ?_, ?_, ?_, ?_⟩ <;> decide

/-- **C5** (counterexample evaluation).  `Span::period` is not total:
`Span { duration: Day, window: Precedent, count: 256 }` on the valid
date `2020-Jan-1` calls `jump_day(-256)`, whose wrapped `u8` cast makes
the internal `assert_eq!` fail (a panic, modelled as `none`). -/
theorem C5_span_period_panic :
    (Span.mk .day .precedent 256).resolve ⟨2020, .jan, 1⟩ = none ∧
    ValidDay (⟨2020, .jan, 1⟩ : Date) ∧
    1000 ≤ (⟨2020, .jan, 1⟩ : Date).year ∧ (⟨2020, .jan, 1⟩ : Date).year ≤ 9999 ∧
    0 < (Span.mk .day .precedent 256).count := by
  refine ⟨?_, ?_, ?_, ?_, ?_⟩ <;> decide

/-- `prev` then `next` is the identity on day-legal dates with positive
year. -/
theorem Date.prev_next {d : Date} (hv : ValidDay d) (hy : 1 ≤ d.year) :
    d.prev.next = d := by
  obtain ⟨y, m, day⟩ := d
  obtain ⟨h1, h2⟩ := hv
  simp only at h1 h2 hy
  unfold Date.prev Date.next
  by_cases hc : day = 1
  · by_cases hd : m = .jan
    · subst hd hc
      simp [Month.count]
      omega
    · simp only [if_pos hc, if_neg hd]
      have hpd : m.prev ≠ .dec := by
        intro hcontra
        apply hd
        have := congrArg Month.next hcontra
        rwa [Month.prev_then_next m hd] at this
      simp [Month.prev_then_next m hd, if_neg hpd, hc]
  · simp only [if_neg hc]
    have : ¬ m.count y = day - 1 := by omega
    simp [if_neg this]
    omega

/-! ## Prorating exactness: C1 -/

/-- Along a contiguous chain of non-empty periods, every piece's end is
bounded by the last piece's end. -/
theorem chain_snd_le_last :
    ∀ (ps : List (Between Date)) (hne : ps ≠ []),
      List.Chain' (fun p q => q.1 = p.2.next) ps →
      (∀ p ∈ ps, ValidDay p.1 ∧ ValidDay p.2 ∧ p.1 ≤ p.2) →
      ∀ p ∈ ps, p.2 ≤ (ps.getLast hne).2 := by
  intro ps
  induction ps with
  | nil => intro hne; exact absurd rfl hne
  | cons a tail ih =>
    intro hne hch hv p hp
    cases tail with
    | nil =>
      rcases List.mem_singleton.mp hp with rfl
      exact le_refl _
    | cons b t =>
      obtain ⟨hab, hch'⟩ := List.chain'_cons.mp hch
      have hlast : (a :: b :: t).getLast hne = (b :: t).getLast (by simp) :=
        List.getLast_cons (by simp)
      rw [hlast]
      have hb_le := ih (by simp) hch' (fun q hq => hv q (List.mem_cons_of_mem _ hq))
        b (by simp)
      rcases List.mem_cons.mp hp with rfl | hp
      · -- p = a: a.2 < a.2.next = b.1 ≤ b.2 ≤ last
        have h1 : (p : Between Date).2 < p.2.next := Date.lt_next _
        have h2 : (b : Between Date).1 ≤ b.2 := (hv b (by simp)).2.2
        rw [hab] at h2
        exact le_trans (le_trans (le_of_lt h1) h2) hb_le
      · exact ih (by simp) hch' (fun q hq => hv q (List.mem_cons_of_mem _ hq)) p hp

/-- Evaluate one prorated piece lying inside the entry's period. -/
theorem intersect_loss_piece (v : Int) (cat : Category) (tag : String) (lo hi a b : Date)
    (hla : lo ≤ a) (hab : a ≤ b) (hbh : b ≤ hi) :
    (Entry.from' v cat (lo, hi) tag).intersect_loss (a, b) =
      some ⟨(v * ((b.index : Int) + 1 - lo.index)).tdiv ((hi.index - lo.index + 1 : Nat)) -
            (v * ((a.index : Int) - lo.index)).tdiv ((hi.index - lo.index + 1 : Nat)),
            cat, (a, b), b.index - a.index + 1, none⟩ := by
  unfold Entry.intersect_loss Entry.from'
  simp only
  rw [max_eq_left hla, min_eq_left hbh, if_neg (not_lt_of_le hab)]

/-- The telescoping sum over a contiguous chain of sub-periods. -/
theorem C1_go (v : Int) (cat : Category) (tag : String) (lo hi : Date)
    (hlo : ValidDay lo) (hylo : 1 ≤ lo.year) :
    ∀ (ps : List (Between Date)) (hne : ps ≠ []),
      List.Chain' (fun p q => q.1 = p.2.next) ps →
      (∀ p ∈ ps, ValidDay p.1 ∧ ValidDay p.2 ∧ p.1 ≤ p.2) →
      lo ≤ (ps.head hne).1 →
      (ps.getLast hne).2 ≤ hi →
      ∃ es, (Entry.from' v cat (lo, hi) tag).intersect_all ps = some es ∧
        (es.map Entry.value).sum =
          (v * ((((ps.getLast hne).2.index : Int)) + 1 - lo.index)).tdiv
            ((hi.index - lo.index + 1 : Nat)) -
          (v * (((ps.head hne).1.index : Int) - lo.index)).tdiv
            ((hi.index - lo.index + 1 : Nat)) := by
  intro ps
  induction ps with
  | nil => intro hne; exact absurd rfl hne
  | cons p tail ih =>
    intro hne hch hv hhead hlast
    cases tail with
    | nil =>
      obtain ⟨hv1, hv2, hv12⟩ := hv p (by simp)
      simp only [List.head_cons] at hhead
      simp only [List.getLast_singleton] at hlast
      have hpiece := intersect_loss_piece v cat tag lo hi p.1 p.2 hhead hv12 hlast
      rw [show ((p.1, p.2) : Between Date) = p from rfl] at hpiece
      have hall : (Entry.from' v cat (lo, hi) tag).intersect_all [p] =
          some [⟨(v * ((p.2.index : Int) + 1 - lo.index)).tdiv ((hi.index - lo.index + 1 : Nat)) -
                 (v * ((p.1.index : Int) - lo.index)).tdiv ((hi.index - lo.index + 1 : Nat)),
                 cat, (p.1, p.2), p.2.index - p.1.index + 1, none⟩] := by
        unfold Entry.intersect_all Entry.intersect_all
        rw [hpiece]
        rfl
      refine ⟨_, hall, ?_⟩
      simp [List.getLast_singleton, List.head_cons]
    | cons q t =>
      obtain ⟨hpq, hch'⟩ := List.chain'_cons.mp hch
      obtain ⟨hv1, hv2, hv12⟩ := hv p (by simp)
      simp only [List.head_cons] at hhead
      have hlast' : ((p :: q :: t).getLast hne) = (q :: t).getLast (by simp) :=
        List.getLast_cons (by simp)
      have hp2hi : p.2 ≤ hi := by
        have := chain_snd_le_last (p :: q :: t) hne hch hv p (by simp)
        rw [hlast'] at this
        exact le_trans this hlast
      have hpiece := intersect_loss_piece v cat tag lo hi p.1 p.2 hhead hv12 hp2hi
      rw [show ((p.1, p.2) : Between Date) = p from rfl] at hpiece
      have hloq : lo ≤ ((q :: t).head (by simp)).1 := by
        simp only [List.head_cons]
        rw [hpq]
        exact le_trans (le_trans hhead hv12) (le_of_lt (Date.lt_next _))
      obtain ⟨es, hes, hsum⟩ := ih (by simp) hch'
        (fun r hr => hv r (List.mem_cons_of_mem _ hr)) hloq
        (by rw [← hlast']; exact hlast)
      have hall : (Entry.from' v cat (lo, hi) tag).intersect_all (p :: q :: t) =
          some (⟨(v * ((p.2.index : Int) + 1 - lo.index)).tdiv ((hi.index - lo.index + 1 : Nat)) -
                 (v * ((p.1.index : Int) - lo.index)).tdiv ((hi.index - lo.index + 1 : Nat)),
                 cat, (p.1, p.2), p.2.index - p.1.index + 1, none⟩ :: es) := by
        unfold Entry.intersect_all
        rw [hpiece, hes]
        rfl
      refine ⟨_, hall, ?_⟩
      have hqidx : ((q.1.index : Nat) : Int) = (p.2.index : Int) + 1 := by
        rw [hpq]
        rw [Date.index_next p.2 hv2 (by
          have hlp : lo ≤ p.2 := le_trans hhead hv12
          have := Date.year_le_of_le hlp
          omega)]
        push_cast
        ring
      simp only [List.map_cons, List.sum_cons]
      rw [hsum]
      simp only [List.head_cons]
      rw [hlast']
      rw [hqidx]
      ring

/-- **C1.** Prorating is exact under resplitting: for every entry with
value `V` over an inclusive period `P = lo..hi` of at least one day,
and every partition of `P` into contiguous non-empty sub-periods,
`intersect_loss` returns `Some` on every piece and the values of the
pieces sum to exactly `V`, despite the truncating integer division. -/
theorem C1_prorating_exact (v : Int) (cat : Category) (tag : String) (lo hi : Date)
    (hlo : ValidDay lo) (hhi : ValidDay hi) (hylo : 1 ≤ lo.year) (hle : lo ≤ hi)
    (ps : List (Between Date)) (hne : ps ≠ [])
    (hchain : List.Chain' (fun p q => q.1 = p.2.next) ps)
    (hvp : ∀ p ∈ ps, ValidDay p.1 ∧ ValidDay p.2 ∧ p.1 ≤ p.2)
    (hhead : (ps.head hne).1 = lo) (hlast : (ps.getLast hne).2 = hi) :
    ∃ es, (Entry.from' v cat (lo, hi) tag).intersect_all ps = some es ∧
      (es.map Entry.value).sum = v := by
  obtain ⟨es, hes, hsum⟩ := C1_go v cat tag lo hi hlo hylo ps hne hchain hvp
    (by rw [hhead]) (by rw [hlast])
  refine ⟨es, hes, ?_⟩
  rw [hsum, hhead, hlast]
  have hidx : lo.index ≤ hi.index := Date.index_mono hlo hhi hylo hle
  have hL : ((hi.index - lo.index + 1 : Nat) : Int) = (hi.index : Int) + 1 - lo.index := by
    omega
  have hne0 : ((hi.index - lo.index + 1 : Nat) : Int) ≠ 0 := by omega
  have h0 : (v * ((lo.index : Int) - lo.index)).tdiv ((hi.index - lo.index + 1 : Nat)) = 0 := by
    simp
  have h1 : (v * ((hi.index : Int) + 1 - lo.index)).tdiv ((hi.index - lo.index + 1 : Nat)) = v := by
    rw [← hL]
    exact Int.mul_tdiv_cancel v hne0
  rw [h0, h1]
  ring

/-- Witness for C1: value 10 over 2020-Jan-1..3 split into three single
days; the truncated pieces are 3, 3, 4 and sum exactly to 10. -/
theorem C1_prorating_exact_witness :
    ∃ es, (Entry.from' 10 .food (⟨2020, .jan, 1⟩, ⟨2020, .jan, 3⟩) "t").intersect_all
        [((⟨2020, .jan, 1⟩ : Date), (⟨2020, .jan, 1⟩ : Date)),
         ((⟨2020, .jan, 2⟩ : Date), (⟨2020, .jan, 2⟩ : Date)),
         ((⟨2020, .jan, 3⟩ : Date), (⟨2020, .jan, 3⟩ : Date))] = some es ∧
      (es.map Entry.value).sum = 10 :=
  C1_prorating_exact 10 .food "t" ⟨2020, .jan, 1⟩ ⟨2020, .jan, 3⟩ (by decide) (by decide)
    (by decide) (by decide) _ (by decide)
    (by rw [List.chain'_cons, List.chain'_cons]
        exact ⟨by decide, by decide, List.chain'_singleton _⟩)
    (by decide) (by decide) (by decide)

/-! ## Summary consistency: C10 -/

theorem Summary.add_entry_consistent (s : Summary) (e : Entry)
    (h : s.total = ∑ c : Category, s.categories c) :
    (s.add_entry e).total = ∑ c : Category, (s.add_entry e).categories c := by
  unfold Summary.add_entry
  cases hx : e.intersect_loss s.period with
  | none => exact h
  | some e' =>
    simp only
    rw [Finset.sum_update_of_mem (Finset.mem_univ e'.cat)]
    rw [h, Finset.sdiff_singleton_eq_erase]
    have hsplit := Finset.add_sum_erase Finset.univ s.categories (Finset.mem_univ e'.cat)
    linarith [hsplit]

theorem Summary.foldl_consistent (entries : List Entry) :
    ∀ s : Summary, s.total = ∑ c : Category, s.categories c →
      (entries.foldl Summary.add_entry s).total =
        ∑ c : Category, (entries.foldl Summary.add_entry s).categories c := by
  induction entries with
  | nil => intro s h; exact h
  | cons e es ih =>
    intro s h
    exact ih (s.add_entry e) (Summary.add_entry_consistent s e h)

/-- **C10.** For every `Summary` created by `from_period` or `from_date`
and mutated by any sequence of `+= &entry` operations, the cached total
equals the sum of the per-category subtotals; and each `+=` either
leaves the summary unchanged (no overlap) or adds the same prorated
amount to exactly one category and to the total. -/
theorem C10_summary_consistency :
    (∀ (p : Between Date) (entries : List Entry),
      (entries.foldl Summary.add_entry (Summary.from_period p)).total =
        ∑ c : Category, (entries.foldl Summary.add_entry (Summary.from_period p)).categories c) ∧
    (∀ d : Date, Summary.from_date d = Summary.from_period (d, d)) ∧
    (∀ (s : Summary) (e : Entry),
      (e.intersect_loss s.period = none ∧ s.add_entry e = s) ∨
      (∃ e', e.intersect_loss s.period = some e' ∧
        s.add_entry e = ⟨s.period, s.total + e'.value,
          Function.update s.categories e'.cat (s.categories e'.cat + e'.value)⟩)) := by
  refine ⟨?_, fun d => rfl, ?_⟩
  · intro p entries
    refine Summary.foldl_consistent entries _ ?_
    simp [Summary.from_period]
  · intro s e
    cases hx : e.intersect_loss s.period with
    | none =>
      left
      refine ⟨rfl, ?_⟩
      unfold Summary.add_entry
      rw [hx]
    | some e' =>
      right
      refine ⟨e', rfl, ?_⟩
      unfold Summary.add_entry
      rw [hx]

/-- Witness for C10 on a concrete summary and entry: 365 cents over the
year 2021 prorated onto February adds 15 cents to the `food` category
and to the total. -/
theorem C10_summary_consistency_witness :
    (([⟨365, .food, (⟨2021, .jan, 1⟩, ⟨2021, .dec, 31⟩), 365, none⟩] : List Entry).foldl
        Summary.add_entry
        (Summary.from_period (⟨2021, .feb, 1⟩, ⟨2021, .feb, 28⟩))).total =
      ∑ c : Category,
        (([⟨365, .food, (⟨2021, .jan, 1⟩, ⟨2021, .dec, 31⟩), 365, none⟩] : List Entry).foldl
          Summary.add_entry
          (Summary.from_period (⟨2021, .feb, 1⟩, ⟨2021, .feb, 28⟩))).categories c :=
  C10_summary_consistency.1 (⟨2021, .feb, 1⟩, ⟨2021, .feb, 28⟩)
    [⟨365, .food, (⟨2021, .jan, 1⟩, ⟨2021, .dec, 31⟩), 365, none⟩]

/-! ## Undeclared-template diagnostics: C9 -/

theorem Record.modify_last_concat (fatal : Nat) (l : List ErrorModel) (x : ErrorModel)
    (f : ErrorModel → ErrorModel) :
    Record.modify_last ⟨fatal, l ++ [x]⟩ f = ⟨fatal, l ++ [f x]⟩ := by
  unfold Record.modify_last
  rw [List.getLast?_concat, List.dropLast_concat]

theorem Record.last_is_fatal_concat (fatal : Nat) (l : List ErrorModel) (x : ErrorModel) :
    Record.last_is_fatal ⟨fatal, l ++ [x]⟩ = x.fatal := by
  unfold Record.last_is_fatal
  rw [List.getLast?_concat]
  rfl

/-- The record produced by the undeclared-template arm of
`instanciate_item`, fully evaluated: one new error, fatal, labelled
"Undeclared template", carrying the three report items. -/
theorem Record.undeclared_chain (errs : Record) (inst : InstanceT) :
    ((((errs.make "Undeclared template").span_item inst.loc
        ("attempt to instanciate " ++ inst.label)).text
        ("'" ++ inst.label ++ "' is not declared")).hint "Maybe a typo ?") =
      ⟨errs.count_errors,
       errs.contents ++ [⟨true, "Undeclared template",
         [.block inst.loc ("attempt to instanciate " ++ inst.label),
          .text ("'" ++ inst.label ++ "' is not declared"),
          .hint "Maybe a typo ?"]⟩]⟩ := by
  unfold Record.make Record.span_item Record.text Record.hint Record.count_errors
  rw [Record.modify_last_concat, Record.modify_last_concat, Record.modify_last_concat]
  simp

/-- **C9.** When an instantiation names a template that is not declared,
the engine records exactly one fatal diagnostic (the "Undeclared
template" error, with its source block, note and hint), contributes zero
entries to the output, leaves the template table unchanged, and goes on
to process the remaining AST items. -/
theorem C9_undeclared_template (templates : SMap TemplateT) (errs : Record)
    (entries : List Entry) (date : Date) (inst : InstanceT) (rest : List AstItem)
    (hundecl : templates.get inst.label = none) :
    instanciate_go templates errs entries (.instance' date inst :: rest) =
      instanciate_go templates
        ⟨errs.count_errors,
         errs.contents ++ [⟨true, "Undeclared template",
           [.block inst.loc ("attempt to instanciate " ++ inst.label),
            .text ("'" ++ inst.label ++ "' is not declared"),
            .hint "Maybe a typo ?"]⟩]⟩
        entries rest ∧
    Record.count_errors
      ⟨errs.count_errors,
       errs.contents ++ [⟨true, "Undeclared template",
         [.block inst.loc ("attempt to instanciate " ++ inst.label),
          .text ("'" ++ inst.label ++ "' is not declared"),
          .hint "Maybe a typo ?"]⟩]⟩ = errs.count_errors + 1 ∧
    Record.count_warnings
      ⟨errs.count_errors,
       errs.contents ++ [⟨true, "Undeclared template",
         [.block inst.loc ("attempt to instanciate " ++ inst.label),
          .text ("'" ++ inst.label ++ "' is not declared"),
          .hint "Maybe a typo ?"]⟩]⟩ = errs.count_warnings := by
  refine ⟨?_, ?_, ?_⟩
  · show (match instanciate_item errs inst date templates with
      | none => none
      | some (errs', some e) => instanciate_go templates errs' (entries ++ [e]) rest
      | some (errs', none) => instanciate_go templates errs' entries rest) = _
    unfold instanciate_item
    rw [hundecl]
    simp only
    rw [Record.undeclared_chain]
  · show Record.count_errors ⟨errs.count_errors, errs.contents ++ [_]⟩ = _
    unfold Record.count_errors
    rw [Record.last_is_fatal_concat]
    simp
  · show Record.count_warnings ⟨errs.count_errors, errs.contents ++ [_]⟩ = _
    unfold Record.count_warnings Record.count_errors
    rw [Record.last_is_fatal_concat]
    simp only [List.length_append, List.length_cons, List.length_nil]
    cases h : errs.last_is_fatal <;> simp [h] <;> omega

/-- Witness for C9: one instance of the undeclared template `rent`
against an empty template table and a fresh record. -/
theorem C9_undeclared_template_witness :
    instanciate_go [] ⟨0, []⟩ [] [.instance' ⟨2021, .mar, 5⟩ ⟨"rent", [], [], "loc"⟩] =
      instanciate_go []
        ⟨Record.count_errors ⟨0, []⟩,
         ([] : List ErrorModel) ++ [⟨true, "Undeclared template",
           [.block "loc" ("attempt to instanciate " ++ "rent"),
            .text ("'" ++ "rent" ++ "' is not declared"),
            .hint "Maybe a typo ?"]⟩]⟩
        [] [] ∧
    Record.count_errors
      ⟨Record.count_errors ⟨0, []⟩,
       ([] : List ErrorModel) ++ [⟨true, "Undeclared template",
         [.block "loc" ("attempt to instanciate " ++ "rent"),
          .text ("'" ++ "rent" ++ "' is not declared"),
          .hint "Maybe a typo ?"]⟩]⟩ = Record.count_errors ⟨0, []⟩ + 1 ∧
    Record.count_warnings
      ⟨Record.count_errors ⟨0, []⟩,
       ([] : List ErrorModel) ++ [⟨true, "Undeclared template",
         [.block "loc" ("attempt to instanciate " ++ "rent"),
          .text ("'" ++ "rent" ++ "' is not declared"),
          .hint "Maybe a typo ?"]⟩]⟩ = Record.count_warnings ⟨0, []⟩ :=
  C9_undeclared_template [] ⟨0, []⟩ [] ⟨2021, .mar, 5⟩ ⟨"rent", [], [], "loc"⟩ [] rfl

/-! ## Validity of the date jumps (toward C6) -/

theorem as_u16_id {n : Int} (h0 : 0 ≤ n) (h : n < 65536) : (as_u16 n : Int) = n := by
  unfold as_u16
  rw [Int.emod_eq_of_lt h0 h, Int.toNat_of_nonneg h0]

theorem Date.jump_year_validday {d : Date} (c : Int) (hv : ValidDay d) :
    ValidDay (d.jump_year c) := by
  obtain ⟨h1, h2⟩ := hv
  simp only [Date.jump_year]
  split_ifs with h
  · refine ⟨by show (1 : Nat) ≤ 28; omega, ?_⟩
    show (28 : Nat) ≤ d.month.count (as_u16 ((d.year : Int) + c))
    rw [h.1]
    simp only [Month.count]
    split_ifs <;> omega
  · refine ⟨h1, ?_⟩
    show d.day ≤ d.month.count (as_u16 ((d.year : Int) + c))
    by_cases hm : d.month = .feb
    · rw [hm] at h2 ⊢
      simp only [Month.count] at h2 ⊢
      by_cases h29 : d.day = 29
      · have hleap : is_leap (as_u16 ((d.year : Int) + c)) = true := by
          by_contra hcontra
          exact h ⟨hm, h29, by simpa using hcontra⟩
        rw [if_pos hleap]
        omega
      · have hd28 : d.day ≤ 28 := by
          split_ifs at h2 <;> omega
        split_ifs <;> omega
    · rcases d with ⟨y, m, day⟩
      simp only at h2 hm ⊢
      cases m <;>
        first
          | (exact absurd rfl hm)
          | (simp only [Month.count] at h2 ⊢; omega)

theorem Date.jump_month_validday {d : Date} (c : Int) (hv : ValidDay d) :
    ValidDay (d.jump_month c) := by
  obtain ⟨h1, h2⟩ := hv
  simp only [Date.jump_month]
  exact ⟨le_min h1 (Month.count_pos _ _), min_le_right _ _⟩

theorem Date.jump_month_year_bounds {d : Date} (c : Int) (h0 : 0 ≤ c) (hc : c ≤ 10000)
    (hy : d.year ≤ 20000) :
    d.year ≤ (d.jump_month c).year ∧ (d.jump_month c).year ≤ d.year + 835 := by
  simp only [Date.jump_month]
  have hm12 := Month.toNat_lt_twelve d.month
  have hfd0 : 0 ≤ ((d.month.toNat : Int) + c).fdiv 12 :=
    Int.fdiv_nonneg (by omega) (by norm_num)
  have hfdle : ((d.month.toNat : Int) + c).fdiv 12 ≤ 834 := by
    rw [Int.fdiv_eq_ediv _ (by norm_num)]
    have h1 : (d.month.toNat : Int) + c ≤ 10011 := by omega
    have := Int.ediv_le_ediv (by norm_num : (0 : Int) < 12) h1
    omega
  have hid := as_u16_id (n := (d.year : Int) + ((d.month.toNat : Int) + c).fdiv 12)
    (by omega) (by omega)
  omega

theorem Date.jump_year_year_bounds {d : Date} (c : Int) (h0 : 0 ≤ c) (hc : c ≤ 55000)
    (hy : d.year ≤ 10000) :
    d.year ≤ (d.jump_year c).year ∧ (d.jump_year c).year ≤ d.year + 55000 := by
  have hid := as_u16_id (n := (d.year : Int) + c) (by omega) (by omega)
  simp only [Date.jump_year]
  split_ifs <;> simp only <;> omega

theorem Date.walk_fwd_validday :
    ∀ (fuel : Nat) {d : Date} (count : Nat), ValidDay d →
      ValidDay (Date.walk_fwd fuel d count) := by
  intro fuel
  induction fuel with
  | zero => intro d count hv; exact hv
  | succ fuel ih =>
    intro d count hv
    obtain ⟨h1, h2⟩ := hv
    have hd1 : min (d.month.count d.year - d.day) count ≤ d.month.count d.year - d.day :=
      min_le_left _ _
    have hstep : ValidDay (⟨d.year, d.month, d.day + min (d.month.count d.year - d.day) count⟩
        : Date) := by
      refine ⟨by show 1 ≤ d.day + min (d.month.count d.year - d.day) count; omega, ?_⟩
      show d.day + min (d.month.count d.year - d.day) count ≤ d.month.count d.year
      omega
    simp only [Date.walk_fwd]
    split_ifs with hc0 hcd
    · exact ⟨h1, h2⟩
    · exact hstep
    · exact ih _ (Date.next_validday hstep)

theorem Date.walk_bwd_validday :
    ∀ (fuel : Nat) {d : Date} (count : Nat), ValidDay d →
      ValidDay (Date.walk_bwd fuel d count) := by
  intro fuel
  induction fuel with
  | zero => intro d count hv; exact hv
  | succ fuel ih =>
    intro d count hv
    obtain ⟨h1, h2⟩ := hv
    have hd1 : min (d.day - 1) count ≤ d.day - 1 := min_le_left _ _
    have hstep : ValidDay (⟨d.year, d.month, d.day - min (d.day - 1) count⟩ : Date) := by
      refine ⟨by show 1 ≤ d.day - min (d.day - 1) count; omega, ?_⟩
      show d.day - min (d.day - 1) count ≤ d.month.count d.year
      omega
    simp only [Date.walk_bwd]
    split_ifs with hc0 hcd
    · exact ⟨h1, h2⟩
    · exact hstep
    · exact ih _ (Date.prev_validday hstep)

theorem Date.jump_day_validday {d : Date} {c : Int} {r : Date} (hv : ValidDay d)
    (h : d.jump_day c = some r) : ValidDay r := by
  simp only [Date.jump_day] at h
  split_ifs at h <;> cases h <;>
    first
      | exact Date.walk_fwd_validday _ _
          (Date.jump_month_validday _ (Date.jump_year_validday _ hv))
      | exact Date.walk_bwd_validday _ _
          (Date.jump_month_validday _ (Date.jump_year_validday _ hv))
      | exact Date.walk_fwd_validday _ _ hv
      | exact Date.walk_bwd_validday _ _ hv

theorem Date.jump_day_index {d : Date} {c : Int} {r : Date}
    (h : d.jump_day c = some r) : (r.index : Int) = d.index + c := by
  simp only [Date.jump_day] at h
  split_ifs at h <;> cases h <;> assumption

/-- A day-legal result of a jump whose index is at least `367` has a
positive year. -/
theorem Date.year_pos_of_index_large {r : Date} (hv : ValidDay r) (h : 366 ≤ r.index) :
    1 ≤ r.year := by
  by_contra h0
  have hu := Date.index_upper hv
  omega

/-! ## Calendar contiguity: C6 -/

/-- `from_iter` yields contiguous buckets, and the first bucket starts
at the first boundary date. -/
theorem from_iter_contig :
    ∀ (splits : List Date) (items : List Summary),
      (∀ d ∈ splits, ValidDay d ∧ 1 ≤ d.year) →
      Calendar.from_iter splits = some items →
      contiguous items ∧ ∀ s ∈ items.head?, ∃ h : splits ≠ [], s.period.1 = splits.head h := by
  intro splits
  induction splits with
  | nil =>
    intro items _ h
    cases h
    exact ⟨List.chain'_nil, by simp⟩
  | cons a tail ih =>
    intro items hv h
    cases tail with
    | nil =>
      cases h
      exact ⟨List.chain'_nil, by simp⟩
    | cons b rest =>
      simp only [Calendar.from_iter] at h
      split_ifs at h with hab
      · cases hmap : Calendar.from_iter (b :: rest) with
        | none => rw [hmap] at h; cases h
        | some items' =>
          rw [hmap] at h
          simp only [Option.map_some'] at h
          cases h
          obtain ⟨hcont', hhead'⟩ := ih items' (fun d hd => hv d (List.mem_cons_of_mem _ hd))
            hmap
          refine ⟨?_, ?_⟩
          · rw [contiguous, List.chain'_cons']
            refine ⟨?_, hcont'⟩
            intro s hs
            obtain ⟨hne, hfst⟩ := hhead' s hs
            show (Summary.from_period (a, b.prev)).period.2.next = s.period.1
            rw [hfst]
            simp only [List.head_cons, Summary.from_period]
            exact Date.prev_next (hv b (by simp)).1 (hv b (by simp)).2
          · intro s hs
            simp only [List.head?_cons, Option.mem_def, Option.some.injEq] at hs
            exact ⟨by simp, by rw [← hs]; rfl⟩

/-- `from_step_aux` yields contiguous buckets whenever the step produces
day-legal dates with positive year, and the first bucket starts at the
loop's starting date. -/
theorem from_step_aux_contig (step : Date → Option (Option Date)) :
    ∀ (fuel : Nat) (start : Date) (items : List Summary),
      (∀ d e, ValidDay d → 1 ≤ d.year → step d = some (some e) → ValidDay e ∧ 1 ≤ e.year) →
      ValidDay start → 1 ≤ start.year →
      Calendar.from_step_aux step fuel start = some items →
      contiguous items ∧ ∀ s ∈ items.head?, s.period.1 = start := by
  intro fuel
  induction fuel with
  | zero =>
    intro start items _ _ _ h
    cases h
  | succ fuel ih =>
    intro start items hstep hvs hys h
    simp only [Calendar.from_step_aux] at h
    cases hs : step start with
    | none => rw [hs] at h; cases h
    | some o =>
      rw [hs] at h
      cases o with
      | none =>
        simp only at h
        cases h
        exact ⟨List.chain'_nil, by simp⟩
      | some stop =>
        simp only at h
        split_ifs at h with hlt
        · cases hmap : Calendar.from_step_aux step fuel stop with
          | none => rw [hmap] at h; cases h
          | some items' =>
            rw [hmap] at h
            simp only [Option.map_some'] at h
            cases h
            obtain ⟨hvstop, hystop⟩ := hstep start stop hvs hys hs
            obtain ⟨hcont', hhead'⟩ := ih stop items' hstep hvstop hystop hmap
            refine ⟨?_, ?_⟩
            · rw [contiguous, List.chain'_cons']
              refine ⟨?_, hcont'⟩
              intro s hs'
              show (Summary.from_period (start, stop.prev)).period.2.next = s.period.1
              rw [hhead' s hs']
              exact Date.prev_next hvstop hystop
            · intro s hs'
              simp only [List.head?_cons, Option.mem_def, Option.some.injEq] at hs'
              rw [← hs']
              rfl

/-- The step closure of `from_spacing` produces day-legal dates with
positive year, assuming a day-legal bounding period inside the supported
year range and a spacing count in `1..=10000`. -/
theorem spacing_step_good (period : Between Date) (duration : Duration) (count : Nat)
    (hv2 : ValidDay period.2) (hy2 : period.2.year ≤ 9999) (hc1 : 1 ≤ count)
    (hc2 : count ≤ 10000) :
    ∀ d e, ValidDay d → 1 ≤ d.year →
      Calendar.spacing_step period duration count d = some (some e) →
      ValidDay e ∧ 1 ≤ e.year := by
  intro d e hvd hyd h
  simp only [Calendar.spacing_step] at h
  split_ifs at h with hguard
  · cases h
  · -- d < period.2, so d.year is bounded by the supported range
    have hdlt : d < period.2 := lt_of_not_le hguard
    have hdy : d.year ≤ 9999 := le_trans (Date.year_le_of_le (le_of_lt hdlt)) hy2
    have hy2pos : 1 ≤ period.2.year := by
      have := Date.year_le_of_le (le_of_lt hdlt)
      omega
    have hmin : ∀ next : Date, ValidDay next → 1 ≤ next.year →
        ValidDay (min period.2 next) ∧ 1 ≤ (min period.2 next).year := by
      intro next hvn hyn
      rcases le_total period.2 next with hmn | hmn
      · rw [min_eq_left hmn]; exact ⟨hv2, hy2pos⟩
      · rw [min_eq_right hmn]; exact ⟨hvn, hyn⟩
    cases duration with
    | day =>
      simp only at h
      cases hj : d.jump_day (count : Int) with
      | none => rw [hj] at h; cases h
      | some r =>
        rw [hj] at h
        simp only [Option.map_some', Option.some.injEq] at h
        cases h
        have hvr := Date.jump_day_validday hvd hj
        have hidx := Date.jump_day_index hj
        have hlow := Date.index_lower hvd
        have hyr : 1 ≤ r.year := by
          refine Date.year_pos_of_index_large hvr ?_
          have hy365 : 365 ≤ d.year * 365 := by
            calc (365 : Nat) = 1 * 365 := by norm_num
            _ ≤ d.year * 365 := Nat.mul_le_mul_right _ hyd
          omega
        exact hmin r hvr hyr
    | week =>
      simp only at h
      cases hj : d.jump_day ((count : Int) * 7) with
      | none => rw [hj] at h; cases h
      | some r =>
        rw [hj] at h
        simp only [Option.map_some', Option.some.injEq] at h
        cases h
        have hvr := Date.jump_day_validday hvd hj
        have hidx := Date.jump_day_index hj
        have hlow := Date.index_lower hvd
        have hyr : 1 ≤ r.year := by
          refine Date.year_pos_of_index_large hvr ?_
          have hy365 : 365 ≤ d.year * 365 := by
            calc (365 : Nat) = 1 * 365 := by norm_num
            _ ≤ d.year * 365 := Nat.mul_le_mul_right _ hyd
          omega
        exact hmin r hvr hyr
    | month =>
      simp only [Option.some.injEq] at h
      cases h
      have hvj := Date.jump_month_validday (count : Int) hvd
      have hbnd := Date.jump_month_year_bounds (d := d) (count : Int) (by omega)
        (by exact_mod_cast hc2) (by omega)
      exact hmin _ hvj (by omega)
    | year =>
      simp only [Option.some.injEq] at h
      cases h
      have hvj := Date.jump_year_validday (count : Int) hvd
      have hbnd := Date.jump_year_year_bounds (d := d) (count : Int) (by omega)
        (by exact_mod_cast (le_trans hc2 (by norm_num : (10000 : Nat) ≤ 55000)))
        (by omega)
      exact hmin _ hvj (by omega)

/-- `add_entry` never changes the period. -/
theorem Summary.add_entry_period (s : Summary) (e : Entry) :
    (s.add_entry e).period = s.period := by
  unfold Summary.add_entry
  cases e.intersect_loss s.period <;> rfl

/-- `register_one` preserves periods pointwise. -/
theorem register_one_periods (items : List Summary) (e : Entry) :
    List.Forall₂ (fun s t => s.period = t.period) items (Calendar.register_one items e) := by
  unfold Calendar.register_one
  cases Calendar.dichotomy_idx items e.period with
  | none => exact List.forall₂_same.mpr (fun s _ => rfl)
  | some se =>
    obtain ⟨start, stop⟩ := se
    simp only
    have : ∀ (k : Nat) (l : List Summary),
        List.Forall₂ (fun s t => s.period = t.period) l
          (l.mapIdx (fun i s => if start ≤ i + k ∧ i + k ≤ stop then s.add_entry e else s)) := by
      intro k l
      induction l generalizing k with
      | nil => exact List.Forall₂.nil
      | cons x xs ihl =>
        rw [List.mapIdx_cons]
        refine List.Forall₂.cons ?_ ?_
        · split_ifs with hcnd
          · exact (Summary.add_entry_period x e).symm
          · rfl
        · have := ihl (k + 1)
          simp only [Nat.add_assoc, Nat.add_comm 1 k] at this ⊢
          convert this using 2
    have h0 := this 0
    simp only [Nat.add_zero] at h0
    exact h0 items

theorem forall₂_period_trans {l1 l2 l3 : List Summary}
    (h1 : List.Forall₂ (fun s t => s.period = t.period) l1 l2)
    (h2 : List.Forall₂ (fun s t => s.period = t.period) l2 l3) :
    List.Forall₂ (fun s t => s.period = t.period) l1 l3 := by
  induction h1 generalizing l3 with
  | nil =>
    cases h2
    exact List.Forall₂.nil
  | cons hx hxs ih =>
    cases h2 with
    | cons hy hys => exact List.Forall₂.cons (hx.trans hy) (ih hys)

/-- `register` preserves all bucket periods. -/
theorem register_periods (entries : List Entry) :
    ∀ items : List Summary,
      List.Forall₂ (fun s t => s.period = t.period) items (Calendar.register items entries) := by
  induction entries with
  | nil => intro items; exact List.forall₂_same.mpr (fun s _ => rfl)
  | cons e es ih =>
    intro items
    exact forall₂_period_trans (register_one_periods items e) (ih _)

/-- **C6.** Every calendar constructor yields contiguous, pairwise
non-overlapping buckets — adjacent buckets satisfy
`items[i].period.1.next() = items[i+1].period.0` — and `register`
(`+=` on the buckets) never changes any bucket's period. -/
theorem C6_calendar_contiguity :
    (∀ (splits : List Date) (items : List Summary),
      (∀ d ∈ splits, ValidDay d ∧ 1 ≤ d.year) →
      Calendar.from_iter splits = some items → contiguous items) ∧
    (∀ (fuel : Nat) (start : Date) (step : Date → Option Date) (items : List Summary),
      (∀ d e, ValidDay d → 1 ≤ d.year → step d = some e → ValidDay e ∧ 1 ≤ e.year) →
      ValidDay start → 1 ≤ start.year →
      Calendar.from_step fuel start step = some items → contiguous items) ∧
    (∀ (fuel : Nat) (period : Between Date) (duration : Duration) (count : Nat)
        (items : List Summary),
      ValidDay period.1 → ValidDay period.2 → 1 ≤ period.1.year → period.2.year ≤ 9999 →
      1 ≤ count → count ≤ 10000 →
      Calendar.from_spacing fuel period duration count = some items → contiguous items) ∧
    (∀ (entries : List Entry) (items : List Summary),
      List.Forall₂ (fun s t => s.period = t.period) items
        (Calendar.register items entries)) := by
  refine ⟨?_, ?_, ?_, fun entries items => register_periods entries items⟩
  · intro splits items hv h
    exact (from_iter_contig splits items hv h).1
  · intro fuel start step items hstep hvs hys h
    refine (from_step_aux_contig (fun d => some (step d)) fuel start items ?_ hvs hys h).1
    intro d e hvd hyd hsd
    simp only [Option.some.injEq] at hsd
    exact hstep d e hvd hyd hsd
  · intro fuel period duration count items hv1 hv2 hy1 hy2 hc1 hc2 h
    exact (from_step_aux_contig _ fuel period.1 items
      (spacing_step_good period duration count hv2 hy2 hc1 hc2) hv1 hy1 h).1

/-- Witness for C6: the three constructors on concrete inputs and a
concrete registration. -/
theorem C6_calendar_contiguity_witness :
    contiguous [Summary.from_period (⟨2020, .jan, 1⟩, (⟨2020, .feb, 1⟩ : Date).prev),
                Summary.from_period (⟨2020, .feb, 1⟩, (⟨2020, .mar, 1⟩ : Date).prev)] ∧
    contiguous [Summary.from_period (⟨2020, .jan, 1⟩, (⟨2020, .jan, 10⟩ : Date).prev)] ∧
    contiguous [Summary.from_period (⟨2020, .jan, 1⟩, (⟨2020, .jan, 31⟩ : Date).prev)] ∧
    List.Forall₂ (fun s t => s.period = t.period)
      [Summary.from_period (⟨2020, .jan, 1⟩, ⟨2020, .jan, 31⟩)]
      (Calendar.register [Summary.from_period (⟨2020, .jan, 1⟩, ⟨2020, .jan, 31⟩)]
        [⟨31, .food, (⟨2020, .jan, 1⟩, ⟨2020, .jan, 31⟩), 31, none⟩]) := by
  have h := C6_calendar_contiguity
  refine ⟨?_, ?_, ?_, h.2.2.2 _ _⟩
  · exact h.1 [⟨2020, .jan, 1⟩, ⟨2020, .feb, 1⟩, ⟨2020, .mar, 1⟩] _ (by decide) (by decide)
  · exact h.2.1 3 ⟨2020, .jan, 1⟩
      (fun d => if d < (⟨2020, .jan, 10⟩ : Date) then some ⟨2020, .jan, 10⟩ else none) _
      (by
        intro d e _ _ hsd
        simp only at hsd
        split_ifs at hsd
        cases hsd
        exact ⟨by decide, by decide⟩)
      (by decide) (by decide) (by decide)
  · exact h.2.2.1 3 (⟨2020, .jan, 1⟩, ⟨2020, .jan, 31⟩) .month 1 _ (by decide) (by decide)
      (by decide) (by decide) (by decide) (by decide) (by decide)

/-! ## Binary-search lookup: C7 -/

/-- The invariant of the `dichotomy_aux` recursion: on a window whose
left edge is `0` or starts at or before the target and whose right edge
is the length or starts strictly after the target, the result is the
window's last index whose bucket start is `<= target` (with clamping at
index `0`). -/
theorem dichotomy_fuel_spec (items : List Summary) (target : Date) :
    ∀ (fuel start stop : Nat), stop - start ≤ fuel → start < stop → stop ≤ items.length →
      (start = 0 ∨ (items.getD start default).period.1 ≤ target) →
      (stop = items.length ∨ target < (items.getD stop default).period.1) →
      start ≤ Calendar.dichotomy_fuel items target fuel start stop ∧
      Calendar.dichotomy_fuel items target fuel start stop + 1 ≤ stop ∧
      (Calendar.dichotomy_fuel items target fuel start stop = 0 ∨
        (items.getD (Calendar.dichotomy_fuel items target fuel start stop) default).period.1
          ≤ target) ∧
      (Calendar.dichotomy_fuel items target fuel start stop + 1 = items.length ∨
        target <
          (items.getD (Calendar.dichotomy_fuel items target fuel start stop + 1)
            default).period.1) := by
  intro fuel
  induction fuel with
  | zero =>
    intro start stop hfuel hlt hle hstart hstop
    omega
  | succ fuel ih =>
    intro start stop hfuel hlt hle hstart hstop
    show start ≤ Calendar.dichotomy_fuel items target (fuel + 1) start stop ∧ _
    by_cases hbase : start + 1 ≥ stop
    · have hfix : Calendar.dichotomy_fuel items target (fuel + 1) start stop = start := by
        unfold Calendar.dichotomy_fuel
        rw [if_pos hbase]
      rw [hfix]
      have hstop1 : stop = start + 1 := by omega
      rw [hstop1] at hstop
      exact ⟨le_refl _, by omega, hstart, hstop⟩
    · have hmid1 : start < (start + stop) / 2 := by omega
      have hmid2 : (start + stop) / 2 < stop := by omega
      by_cases hcmp : (items.getD ((start + stop) / 2) default).period.1 > target
      · have hfix : Calendar.dichotomy_fuel items target (fuel + 1) start stop =
            Calendar.dichotomy_fuel items target fuel start ((start + stop) / 2) := by
          simp only [Calendar.dichotomy_fuel]
          rw [if_neg hbase, if_pos hcmp]
        rw [hfix]
        obtain ⟨a1, a2, a3, a4⟩ := ih start ((start + stop) / 2) (by omega) hmid1 (by omega)
          hstart (Or.inr hcmp)
        exact ⟨a1, by omega, a3, a4⟩
      · have hfix : Calendar.dichotomy_fuel items target (fuel + 1) start stop =
            Calendar.dichotomy_fuel items target fuel ((start + stop) / 2) stop := by
          simp only [Calendar.dichotomy_fuel]
          rw [if_neg hbase, if_neg hcmp]
        rw [hfix]
        obtain ⟨a1, a2, a3, a4⟩ := ih ((start + stop) / 2) stop (by omega) hmid2 hle
          (Or.inr (le_of_not_lt hcmp)) hstop
        exact ⟨by omega, a2, a3, a4⟩

/-- Weak monotonicity of bucket starts, from strict sortedness. -/
theorem sorted_starts_mono (items : List Summary)
    (hsorted : ∀ i j, i < j → j < items.length →
      (items.getD i default).period.1 < (items.getD j default).period.1)
    {i j : Nat} (hij : i ≤ j) (hj : j < items.length) :
    (items.getD i default).period.1 ≤ (items.getD j default).period.1 := by
  rcases eq_or_lt_of_le hij with rfl | h
  · exact le_refl _
  · exact le_of_lt (hsorted i j h hj)

/-- **C7.** For a non-empty calendar with strictly increasing bucket
start dates, `dichotomy_aux(target, 0, len)` returns the index of the
last bucket whose start date is `<= target`, clamped at the boundaries:
a target before the first start returns `0`, a target at or past the
last start returns the last index, and the search applied to any
bucket's own start date returns that bucket's index. -/
theorem C7_dichotomy_aux (items : List Summary) (target : Date)
    (hne : 1 ≤ items.length)
    (hsorted : ∀ i j, i < j → j < items.length →
      (items.getD i default).period.1 < (items.getD j default).period.1) :
    Calendar.dichotomy_aux items target 0 items.length < items.length ∧
    (target < (items.getD 0 default).period.1 →
      Calendar.dichotomy_aux items target 0 items.length = 0) ∧
    ((items.getD 0 default).period.1 ≤ target →
      (items.getD (Calendar.dichotomy_aux items target 0 items.length) default).period.1
          ≤ target ∧
      (∀ j, j < items.length → (items.getD j default).period.1 ≤ target →
        j ≤ Calendar.dichotomy_aux items target 0 items.length)) ∧
    ((items.getD (items.length - 1) default).period.1 ≤ target →
      Calendar.dichotomy_aux items target 0 items.length = items.length - 1) ∧
    (∀ i, i < items.length →
      Calendar.dichotomy_aux items (items.getD i default).period.1 0 items.length = i) := by
  have hmax : ∀ t : Date, (items.getD 0 default).period.1 ≤ t →
      ∀ j, j < items.length → (items.getD j default).period.1 ≤ t →
        j ≤ Calendar.dichotomy_aux items t 0 items.length := by
    intro t h0 j hj hjle
    have hda : Calendar.dichotomy_aux items t 0 items.length =
        Calendar.dichotomy_fuel items t (items.length - 0) 0 items.length := rfl
    obtain ⟨h1, h2, h3, h4⟩ := dichotomy_fuel_spec items t (items.length - 0) 0 items.length
      (le_refl _) (by omega) (le_refl _) (Or.inl rfl) (Or.inl rfl)
    by_contra hgt
    rw [hda] at hgt
    rcases h4 with h4 | h4
    · omega
    · have hmono := sorted_starts_mono items hsorted
        (show Calendar.dichotomy_fuel items t (items.length - 0) 0 items.length + 1 ≤ j by
          omega) hj
      exact absurd (lt_of_lt_of_le h4 (le_trans hmono hjle)) (lt_irrefl t)
  have hspec := dichotomy_fuel_spec items target (items.length - 0) 0 items.length
    (le_refl _) (by omega) (le_refl _) (Or.inl rfl) (Or.inl rfl)
  obtain ⟨h1, h2, h3, h4⟩ := hspec
  refine ⟨by unfold Calendar.dichotomy_aux; omega, ?_, ?_, ?_, ?_⟩
  · -- target before the first start
    intro hlt
    rcases h3 with h3 | h3
    · exact h3
    · by_contra hne0
      have hpos : 0 < Calendar.dichotomy_fuel items target (items.length - 0) 0 items.length := by
        unfold Calendar.dichotomy_aux at hne0
        omega
      have := sorted_starts_mono items hsorted (Nat.one_le_iff_ne_zero.mpr (by omega))
        (by omega : Calendar.dichotomy_fuel items target (items.length - 0) 0 items.length
          < items.length)
      have hmono := sorted_starts_mono items hsorted
        (Nat.zero_le (Calendar.dichotomy_fuel items target (items.length - 0) 0 items.length))
        (by omega)
      exact absurd (lt_of_lt_of_le hlt (le_trans hmono h3)) (lt_irrefl target)
  · -- characterization when the first start is <= target
    intro h0
    refine ⟨?_, hmax target h0⟩
    rcases h3 with h3 | h3
    · unfold Calendar.dichotomy_aux
      rw [h3]
      exact h0
    · exact h3
  · -- at or past the last start: last index
    intro hlastle
    have h0 : (items.getD 0 default).period.1 ≤ target :=
      le_trans (sorted_starts_mono items hsorted (Nat.zero_le _) (by omega)) hlastle
    have hj := hmax target h0 (items.length - 1) (by omega) hlastle
    have hda : Calendar.dichotomy_aux items target 0 items.length =
        Calendar.dichotomy_fuel items target (items.length - 0) 0 items.length := rfl
    rw [hda] at hj ⊢
    omega
  · -- each bucket's own start date
    intro i hi
    have h0 : (items.getD 0 default).period.1 ≤ (items.getD i default).period.1 :=
      sorted_starts_mono items hsorted (Nat.zero_le _) hi
    obtain ⟨g1, g2, g3, g4⟩ := dichotomy_fuel_spec items ((items.getD i default).period.1)
      (items.length - 0) 0 items.length (le_refl _) (by omega) (le_refl _)
      (Or.inl rfl) (Or.inl rfl)
    have hle_i := hmax ((items.getD i default).period.1) h0 i hi (le_refl _)
    have hri : Calendar.dichotomy_aux items ((items.getD i default).period.1) 0 items.length
        ≤ i := by
      rcases g3 with g3 | g3
      · unfold Calendar.dichotomy_aux
        omega
      · by_contra hgt
        have : (items.getD i default).period.1 <
            (items.getD (Calendar.dichotomy_fuel items ((items.getD i default).period.1)
              (items.length - 0) 0 items.length) default).period.1 := by
          apply hsorted
          · unfold Calendar.dichotomy_aux at hgt
            omega
          · omega
        exact absurd (lt_of_lt_of_le this g3) (lt_irrefl _)
    omega

/-- Witness for C7 on a three-bucket calendar over 2020 Jan..Mar. -/
theorem C7_dichotomy_aux_witness :
    (Calendar.dichotomy_aux
        [Summary.from_period (⟨2020, .jan, 1⟩, ⟨2020, .jan, 31⟩),
         Summary.from_period (⟨2020, .feb, 1⟩, ⟨2020, .feb, 29⟩),
         Summary.from_period (⟨2020, .mar, 1⟩, ⟨2020, .mar, 31⟩)]
        (⟨2020, .feb, 15⟩ : Date) 0 3 < 3) ∧
    (∀ i, i < 3 →
      Calendar.dichotomy_aux
        [Summary.from_period (⟨2020, .jan, 1⟩, ⟨2020, .jan, 31⟩),
         Summary.from_period (⟨2020, .feb, 1⟩, ⟨2020, .feb, 29⟩),
         Summary.from_period (⟨2020, .mar, 1⟩, ⟨2020, .mar, 31⟩)]
        (([Summary.from_period ((⟨2020, .jan, 1⟩ : Date), ⟨2020, .jan, 31⟩),
           Summary.from_period (⟨2020, .feb, 1⟩, ⟨2020, .feb, 29⟩),
           Summary.from_period (⟨2020, .mar, 1⟩, ⟨2020, .mar, 31⟩)].getD i
            default).period.1) 0 3 = i) := by
  have h := C7_dichotomy_aux
    [Summary.from_period (⟨2020, .jan, 1⟩, ⟨2020, .jan, 31⟩),
     Summary.from_period (⟨2020, .feb, 1⟩, ⟨2020, .feb, 29⟩),
     Summary.from_period (⟨2020, .mar, 1⟩, ⟨2020, .mar, 31⟩)]
    ⟨2020, .feb, 15⟩ (by decide)
    (by
      intro i j hij hj
      have hj3 : j < 3 := by simpa using hj
      have hi3 : i < 3 := by omega
      interval_cases i <;> interval_cases j <;> first | decide | omega)
  exact ⟨h.1, h.2.2.2.2⟩

end Billig
